import Mathlib

/-!
# Argon2id password-hash records: encoding, decoding and verification

A shallow embedding of `argon.go` (package `argon2id`).

* Byte slices and strings are lists of natural numbers below 256.
* Machine integers (`uint32`, `uint8`) are natural numbers; conversions
  that may truncate are written with an explicit `%`.
* Go's `error` results are `Option GoError` (`none` is `nil`).
* A run-time panic (slice index out of range) is an explicit outcome of
  `Exec`.
* The key-derivation primitive `argon2.IDKey` of `golang.org/x/crypto` is
  not part of the package. The key it computes is the parameter `IDKey` of
  every function that calls it; the inputs on which the library panics
  instead of returning a key are part of the embedding (`argon2_IDKey`).
* The library routines the package calls (`strings.Split`, `fmt.Sprintf`,
  `fmt.Sscanf`, `base64.RawStdEncoding`, `subtle.ConstantTimeCompare`) are
  embedded for the arguments the package passes to them.
-/

namespace Argon2id

/-! ## Data model -/

/-- A Go byte slice or string: a sequence of bytes. -/
abbrev Bytes := List Nat

/-- The bytes of an ASCII string literal. -/
def ascii (s : String) : Bytes := s.toList.map Char.toNat

/-- Every element is a byte. -/
def IsBytes (bs : Bytes) : Prop := ∀ b ∈ bs, b < 256

instance (bs : Bytes) : Decidable (IsBytes bs) := by
  unfold IsBytes; infer_instance

/-- Errors that `fmt.Sscanf` reports while scanning the parameter block. -/
inductive ScanError where
  /-- The error `io.EOF`: no input where an operand should start. -/
  | EOF
  /-- The error `io.ErrUnexpectedEOF`: no input where a literal is expected. -/
  | ErrUnexpectedEOF
  /-- Message "input does not match format". -/
  | inputDoesNotMatchFormat
  /-- Message "unexpected newline". -/
  | unexpectedNewline
  /-- Message "expected integer". -/
  | expectedInteger
  /-- The `strconv.ParseUint` range error for the token. -/
  | valueOutOfRange (tok : Bytes)
  /-- Message "unsigned integer overflow on token " followed by the token. -/
  | unsignedIntegerOverflow (tok : Bytes)
  deriving DecidableEq, Repr

/-- The `error` values the package can return. -/
inductive GoError where
  /-- Package variable `ErrorInvalidHash`. -/
  | ErrorInvalidHash
  /-- Package variable `ErrorInvalidVersion`. -/
  | ErrorInvalidVersion
  /-- Package variable `ErrorPasswordMismatch`. -/
  | ErrorPasswordMismatch
  /-- An error produced by `fmt.Sscanf`, returned unchanged. -/
  | scanError (e : ScanError)
  /-- The `base64.CorruptInputError` at the given input offset. -/
  | CorruptInputError (offset : Nat)
  /-- An error of the random source `crypto/rand`, returned unchanged. -/
  | randError
  deriving DecidableEq, Repr

/-- The outcome of running a function body: it returns a value, or it
panics because a slice is indexed at `index` while its length is `len`, or
it panics inside the call of `argon2.IDKey`. -/
inductive Exec (α : Type) where
  | ret (a : α)
  | panicIndexOutOfRange (index len : Nat)
  | panicIDKey
  deriving DecidableEq, Repr

/-- The struct `Parameters`; the zero value has all fields zero and a nil salt. -/
structure Parameters where
  Time : Nat := 0
  Memory : Nat := 0
  Threads : Nat := 0
  Length : Nat := 0
  Salt : Bytes := []
  deriving DecidableEq, Repr

/-- The field types of `Parameters`: `uint32`, `uint32`, `uint8`, `uint32`, `[]byte`. -/
def Parameters.WellTyped (p : Parameters) : Prop :=
  p.Time < 2 ^ 32 ∧ p.Memory < 2 ^ 32 ∧ p.Threads < 2 ^ 8 ∧ p.Length < 2 ^ 32 ∧ IsBytes p.Salt

instance (p : Parameters) : Decidable p.WellTyped := by
  unfold Parameters.WellTyped; infer_instance

/-- The key that `argon2.IDKey` computes where it returns:
`(password, salt, time, memory, threads, keyLen) -> key`. -/
abbrev KDF := Bytes → Bytes → Nat → Nat → Nat → Nat → Bytes

/-- The key-derivation primitive returns byte slices. -/
def KDF.ReturnsBytes (IDKey : KDF) : Prop :=
  ∀ password salt time memory threads keyLen,
    IsBytes (IDKey password salt time memory threads keyLen)

/-- The key-derivation primitive returns exactly `keyLen` bytes. -/
def KDF.ExactLength (IDKey : KDF) : Prop :=
  ∀ password salt time memory threads keyLen,
    (IDKey password salt time memory threads keyLen).length = keyLen

/-- The call `rand.Read(b)` for a buffer `b` of the given length: the
contents of the buffer after the call, and the error. -/
abbrev RandomSource := Nat → Bytes × Option GoError

/-- The random source leaves the buffer at its length. -/
def RandomSource.KeepsLength (Read : RandomSource) : Prop :=
  ∀ n, (Read n).1.length = n

/-- The constant `argon2.Version` (0x13). -/
def Version : Nat := 0x13

/-! ## `strings.Split` -/

/-- The byte `$`. -/
def dollar : Nat := 36

/-- The function `strings.Split(s, sep)` for a one-byte separator: the substrings of `s`
between the occurrences of `sep`; one more segment than separators. -/
def Split (sep : Nat) : Bytes → List Bytes
  | [] => [[]]
  | c :: cs =>
    if c = sep then [] :: Split sep cs
    else
      match Split sep cs with
      | [] => [[c]]
      | seg :: segs => (c :: seg) :: segs

/-! ## `fmt.Sprintf` with the verb `%d` -/

/-- The digit loop of `fmt.fmtInteger` in base 10: the last digit is
`u % 10`, the digits before it are those of `u / 10`. -/
def fmtDigits : Nat → Nat → Bytes
  | 0, _ => []
  | fuel + 1, u =>
    if u < 10 then [48 + u] else fmtDigits fuel (u / 10) ++ [48 + u % 10]

/-- The verb `%d` applied to an unsigned integer: its decimal digits.
A 64-bit value has at most 20 digits. -/
def fmtInteger (u : Nat) : Bytes := fmtDigits 20 u

/-! ## `base64.RawStdEncoding` -/

/-- The standard base64 alphabet. -/
def encodeStd : Bytes :=
  ascii "ABCDEFGHIJKLMNOPQRSTUVWXYZabcdefghijklmnopqrstuvwxyz0123456789+/"

/-- The table lookup `enc.encode[i]`. -/
def encodeChar (i : Nat) : Nat := encodeStd.getD i 0

/-- The method `base64.RawStdEncoding.EncodeToString`: three source bytes become four
characters; a final block of one or two bytes becomes two or three
characters; no padding is written. -/
def EncodeToString : Bytes → Bytes
  | [] => []
  | [b0] =>
    let val := b0 * 65536
    [encodeChar (val / 262144 % 64), encodeChar (val / 4096 % 64)]
  | [b0, b1] =>
    let val := b0 * 65536 + b1 * 256
    [encodeChar (val / 262144 % 64), encodeChar (val / 4096 % 64),
     encodeChar (val / 64 % 64)]
  | b0 :: b1 :: b2 :: rest =>
    let val := b0 * 65536 + b1 * 256 + b2
    encodeChar (val / 262144 % 64) :: encodeChar (val / 4096 % 64) ::
      encodeChar (val / 64 % 64) :: encodeChar (val % 64) :: EncodeToString rest

/-- The table `enc.decodeMap`: the value of an alphabet character, and
`none` (0xff in the table) for every other byte. -/
def decodeMap (c : Nat) : Option Nat :=
  if 65 ≤ c ∧ c ≤ 90 then some (c - 65)
  else if 97 ≤ c ∧ c ≤ 122 then some (c - 97 + 26)
  else if 48 ≤ c ∧ c ≤ 57 then some (c - 48 + 52)
  else if c = 43 then some 62
  else if c = 47 then some 63
  else none

/-- The bytes a quantum of `dbuf.length` six-bit values yields: `dlen - 1`
bytes of the 24-bit value (non-strict mode: trailing bits are dropped). -/
def quantumBytes (dbuf : List Nat) : Bytes :=
  let val := dbuf.getD 0 0 * 262144 + dbuf.getD 1 0 * 4096 + dbuf.getD 2 0 * 64 + dbuf.getD 3 0
  ([val / 65536 % 256, val / 256 % 256, val % 256]).take (dbuf.length - 1)

/-- The loop of `Decode` over `decodeQuantum`, without padding and
non-strict. `si` is the offset of the next input byte and `dbuf` holds the
six-bit values read so far for the current quantum (fewer than four).
Carriage returns and newlines are skipped; any other byte outside the
alphabet is a `CorruptInputError` at its offset; input that ends after a
single character of a quantum is a `CorruptInputError` at `si - 1`. -/
def decodeLoop : Bytes → Nat → List Nat → Except GoError Bytes
  | [], si, dbuf =>
    if dbuf.length = 0 then .ok []
    else if dbuf.length = 1 then .error (.CorruptInputError (si - 1))
    else .ok (quantumBytes dbuf)
  | c :: src, si, dbuf =>
    match decodeMap c with
    | some out =>
      if dbuf.length = 3 then
        match decodeLoop src (si + 1) [] with
        | .ok rest => .ok (quantumBytes (dbuf ++ [out]) ++ rest)
        | .error e => .error e
      else decodeLoop src (si + 1) (dbuf ++ [out])
    | none =>
      if c = 10 ∨ c = 13 then decodeLoop src (si + 1) dbuf
      else .error (.CorruptInputError si)

/-- The method `base64.RawStdEncoding.DecodeString`. -/
def DecodeString (s : Bytes) : Except GoError Bytes := decodeLoop s 0 []

/-! ## `subtle.ConstantTimeCompare` -/

/-- The accumulator loop `v |= x[i] ^ y[i]`. -/
def xorFold : Bytes → Bytes → Nat → Nat
  | a :: x, b :: y, v => xorFold x y (v ||| (a ^^^ b))
  | _, _, v => v

/-- The function `subtle.ConstantTimeCompare`: 0 when the lengths differ, otherwise 1
exactly when the accumulated difference is zero. -/
def ConstantTimeCompare (x y : Bytes) : Nat :=
  if x.length ≠ y.length then 0
  else if xorFold x y 0 = 0 then 1 else 0

/-! ## `fmt.Sscanf` with the format `m%d,t=%d,p=%d` -/

/-- The rune `utf8.RuneError`. -/
def RuneError : Nat := 0xFFFD

/-- A continuation byte lies between the given bounds. -/
def inRange (lo hi b : Nat) : Bool := decide (lo ≤ b ∧ b ≤ hi)

/-- The function `utf8.DecodeRune`: the first rune of `p` and its width in bytes; an
invalid or incomplete encoding is `RuneError` of width 1. -/
def DecodeRune : Bytes → Nat × Nat
  | [] => (RuneError, 0)
  | p0 :: rest =>
    if p0 < 0x80 then (p0, 1)
    else if p0 < 0xC2 then (RuneError, 1)
    else if p0 < 0xE0 then
      match rest with
      | b1 :: _ =>
        if inRange 0x80 0xBF b1 then (p0 % 32 * 64 + b1 % 64, 2) else (RuneError, 1)
      | _ => (RuneError, 1)
    else if p0 < 0xF0 then
      match rest with
      | b1 :: b2 :: _ =>
        if inRange (if p0 = 0xE0 then 0xA0 else 0x80) (if p0 = 0xED then 0x9F else 0xBF) b1
            && inRange 0x80 0xBF b2 then
          (p0 % 16 * 4096 + b1 % 64 * 64 + b2 % 64, 3)
        else (RuneError, 1)
      | _ => (RuneError, 1)
    else if p0 < 0xF5 then
      match rest with
      | b1 :: b2 :: b3 :: _ =>
        if inRange (if p0 = 0xF0 then 0x90 else 0x80) (if p0 = 0xF4 then 0x8F else 0xBF) b1
            && inRange 0x80 0xBF b2 && inRange 0x80 0xBF b3 then
          (p0 % 8 * 262144 + b1 % 64 * 4096 + b2 % 64 * 64 + b3 % 64, 4)
        else (RuneError, 1)
      | _ => (RuneError, 1)
    else (RuneError, 1)

/-- The runes that successive `ReadRune` calls deliver for the string `p`. -/
def runesFuel : Nat → Bytes → List Nat
  | 0, _ => []
  | _, [] => []
  | fuel + 1, b :: p =>
    (DecodeRune (b :: p)).1 :: runesFuel fuel ((b :: p).drop (DecodeRune (b :: p)).2)

/-- The runes of the string `p`. -/
def runes (p : Bytes) : List Nat := runesFuel p.length p

/-- The scanner state `ss`: the runes not yet read and the number of runes
consumed so far. -/
structure ss where
  input : List Nat
  count : Nat
  deriving DecidableEq, Repr

/-- The constant `hugeWid`, the limit on the runes one scan may consume. -/
def hugeWid : Nat := 2 ^ 30

/-- The method `getRune`: the next rune and the state after it, or `none`
for `eof` (the input is exhausted or `count` has reached the limit). -/
def ss.getRune (s : ss) : Option (Nat × ss) :=
  if s.count ≥ hugeWid then none
  else
    match s.input with
    | [] => none
    | r :: rest => some (r, ⟨rest, s.count + 1⟩)

/-- The function `isSpace` of `fmt`: the Unicode white-space ranges. -/
def isSpace (r : Nat) : Bool :=
  inRange 0x0009 0x000d r || r = 0x0020 || r = 0x0085 || r = 0x00a0 || r = 0x1680 ||
  inRange 0x2000 0x200a r || inRange 0x2028 0x2029 r || r = 0x202f || r = 0x205f ||
  r = 0x3000

/-- The method `peek` for the string "\n": the next rune is a newline. -/
def peekNewline (input : List Nat) (count : Nat) : Bool :=
  match ss.getRune ⟨input, count⟩ with
  | some (r, _) => r = 10
  | none => false

/-- The method `SkipSpace` when newlines are not spaces: it skips spaces,
stops before the first other rune or at `eof`, and fails at a newline. -/
def SkipSpace : List Nat → Nat → Except ScanError ss
  | [], count => .ok ⟨[], count⟩
  | r :: rest, count =>
    if count ≥ hugeWid then .ok ⟨r :: rest, count⟩
    else if r = 13 ∧ peekNewline rest (count + 1) = true then SkipSpace rest (count + 1)
    else if r = 10 then .error .unexpectedNewline
    else if isSpace r = false then .ok ⟨r :: rest, count⟩
    else SkipSpace rest (count + 1)

/-- The loop `for s.accept(digits)` with the decimal digits: the digits
read are appended to the token `buf`. -/
def acceptDigits : List Nat → Nat → Bytes → Bytes × ss
  | [], count, buf => (buf, ⟨[], count⟩)
  | r :: rest, count, buf =>
    if count ≥ hugeWid then (buf, ⟨r :: rest, count⟩)
    else if 48 ≤ r ∧ r ≤ 57 then acceptDigits rest (count + 1) (buf ++ [r])
    else (buf, ⟨r :: rest, count⟩)

/-- The constant `maxUint64`. -/
def maxUint64 : Nat := 2 ^ 64 - 1

/-- The digit loop of `strconv.ParseUint(tok, 10, 64)` on a token of
decimal digits: a range error once the value exceeds 64 bits. -/
def parseUintLoop (tok : Bytes) : Bytes → Nat → Except ScanError Nat
  | [], n => .ok n
  | c :: cs, n =>
    if n ≥ maxUint64 / 10 + 1 then .error (.valueOutOfRange tok)
    else if n * 10 + (c - 48) > maxUint64 then .error (.valueOutOfRange tok)
    else parseUintLoop tok cs (n * 10 + (c - 48))

/-- The method `scanUint` for the verb `d`: skip spaces, require input,
read a non-empty run of decimal digits, convert it, and check that the
value fits in `bitSize` bits. -/
def scanUint (bitSize : Nat) (s : ss) : Except ScanError (Nat × ss) :=
  match SkipSpace s.input s.count with
  | .error e => .error e
  | .ok s1 =>
    match s1.getRune with
    | none => .error .EOF
    | some _ =>
      match acceptDigits s1.input s1.count [] with
      | ([], _) => .error .expectedInteger
      | (tok, s2) =>
        match parseUintLoop tok tok 0 with
        | .error e => .error e
        | .ok i =>
          if i % 2 ^ bitSize ≠ i then .error (.unsignedIntegerOverflow tok)
          else .ok (i, s2)

/-- One verb `%d` of `doScanf`: spaces are skipped before the operand is
scanned by `scanOne`. -/
def scanVerb (bitSize : Nat) (s : ss) : Except ScanError (Nat × ss) :=
  match SkipSpace s.input s.count with
  | .error e => .error e
  | .ok s1 => scanUint bitSize s1

/-- The method `advance` on a run of literal format characters: each must
equal the next input rune; `eof` is `ErrUnexpectedEOF`. -/
def advance : List Nat → List Nat → Nat → Except ScanError ss
  | [], input, count => .ok ⟨input, count⟩
  | fmtc :: format, input, count =>
    match ss.getRune ⟨input, count⟩ with
    | none => .error .ErrUnexpectedEOF
    | some (inputc, s) =>
      if fmtc ≠ inputc then .error .inputDoesNotMatchFormat
      else advance format s.input s.count

/-- The call `fmt.Sscanf(str, "m%d,t=%d,p=%d", &p.Memory, &p.Time, &p.Threads)`
for operands of type `*uint32`, `*uint32`, `*uint8`: the parameters with
the operands stored before the scan ended, and the error. -/
def Sscanf (str : Bytes) (p : Parameters) : Parameters × Option ScanError :=
  match advance (ascii "m") (runes str) 0 with
  | .error e => (p, some e)
  | .ok s =>
    match scanVerb 32 s with
    | .error e => (p, some e)
    | .ok (memory, s) =>
      let p := { p with Memory := memory % 2 ^ 32 }
      match advance (ascii ",t=") s.input s.count with
      | .error e => (p, some e)
      | .ok s =>
        match scanVerb 32 s with
        | .error e => (p, some e)
        | .ok (time, s) =>
          let p := { p with Time := time % 2 ^ 32 }
          match advance (ascii ",p=") s.input s.count with
          | .error e => (p, some e)
          | .ok s =>
            match scanVerb 8 s with
            | .error e => (p, some e)
            | .ok (threads, _) => ({ p with Threads := threads % 2 ^ 8 }, none)

/-! ## `argon2.IDKey` and `fmt.Sprintf` -/

/-- The call `argon2.IDKey(password, salt, time, memory, threads, keyLen)`
of `golang.org/x/crypto`: it panics when `time < 1` ("number of rounds too
small"), when `threads < 1` ("parallelism degree too low") and, at the
end of the derivation, when `keyLen` is 0 (the BLAKE2b hash of size 0 it
asks for is nil); on every other input it returns the key. -/
def argon2_IDKey (IDKey : KDF) (password salt : Bytes) (time memory threads keyLen : Nat) :
    Exec Bytes :=
  if time < 1 then .panicIDKey
  else if threads < 1 then .panicIDKey
  else if keyLen = 0 then .panicIDKey
  else .ret (IDKey password salt time memory threads keyLen)

/-- The call `fmt.Sprintf("$argon2id$v=%d$m%d,t=%d,p=%d$%s$%s", version,
memory, time, threads, eSalt, eHash)`. -/
def Sprintf (version memory time threads : Nat) (eSalt eHash : Bytes) : Bytes :=
  ascii "$argon2id$v=" ++ fmtInteger version ++ ascii "$m" ++ fmtInteger memory ++
    ascii ",t=" ++ fmtInteger time ++ ascii ",p=" ++ fmtInteger threads ++
    ascii "$" ++ eSalt ++ ascii "$" ++ eHash

/-! ## The package functions -/

/-- The function `NewParameters`: the salt buffer has `length` bytes and is
filled by the random source; the four arguments are stored only when the
random source reports no error. -/
def NewParameters (Read : RandomSource) (time memory threads length : Nat) :
    Parameters × Option GoError :=
  let p : Parameters := {}
  let p := { p with Salt := (Read length).1 }
  match (Read length).2 with
  | some err => (p, some err)
  | none =>
    ({ p with Time := time, Memory := memory, Threads := threads, Length := length }, none)

/-- The function `GenerateFromPassword`. The format string is
`$argon2id$v=%d$m%d,t=%d,p=%d$%s$%s`. A panic of `argon2.IDKey` ends the
call. -/
def GenerateFromPassword (IDKey : KDF) (password : Bytes) (p : Parameters) :
    Exec (Bytes × Option GoError) :=
  match argon2_IDKey IDKey password p.Salt p.Time p.Memory p.Threads p.Length with
  | .panicIDKey => .panicIDKey
  | .panicIndexOutOfRange i n => .panicIndexOutOfRange i n
  | .ret hash =>
    let eSalt := EncodeToString p.Salt
    let eHash := EncodeToString hash
    let out := Sprintf Version p.Memory p.Time p.Threads eSalt eHash
    .ret (out, none)

/-- The function `GetParametersFromHash`. -/
def GetParametersFromHash (hash : Bytes) : Exec (Parameters × Option GoError) :=
  let sections := Split dollar hash
  let p : Parameters := {}
  match sections.get? 3 with
  | none => .panicIndexOutOfRange 3 sections.length
  | some section3 =>
    match Sscanf section3 p with
    | (p, some err) => .ret (p, some (.scanError err))
    | (p, none) =>
      match sections.get? 4 with
      | none => .panicIndexOutOfRange 4 sections.length
      | some section4 =>
        match DecodeString section4 with
        | .error err => .ret (p, some err)
        | .ok salt => .ret ({ p with Length := salt.length % 2 ^ 32, Salt := salt }, none)

/-- The function `CompareHashAndPassword`. A panic of `argon2.IDKey` ends
the call. -/
def CompareHashAndPassword (IDKey : KDF) (hash password : Bytes) : Exec (Option GoError) :=
  let sections := Split dollar hash
  if sections.length ≠ 6 then .ret (some .ErrorInvalidHash)
  else
    match sections.get? 1 with
    | none => .panicIndexOutOfRange 1 sections.length
    | some section1 =>
      if section1 ≠ ascii "argon2id" then .ret (some .ErrorInvalidVersion)
      else
        match sections.get? 5 with
        | none => .panicIndexOutOfRange 5 sections.length
        | some section5 =>
          match DecodeString section5 with
          | .error err => .ret (some err)
          | .ok dHash =>
            match GetParametersFromHash hash with
            | .panicIndexOutOfRange i n => .panicIndexOutOfRange i n
            | .panicIDKey => .panicIDKey
            | .ret (_, some err) => .ret (some err)
            | .ret (p, none) =>
              match argon2_IDKey IDKey password p.Salt p.Time p.Memory p.Threads p.Length with
              | .panicIDKey => .panicIDKey
              | .panicIndexOutOfRange i n => .panicIndexOutOfRange i n
              | .ret cHash =>
                if ConstantTimeCompare dHash cHash ≠ 1 then
                  .ret (some .ErrorPasswordMismatch)
                else .ret none


/-! ## The reference vector of `argon_test.go` -/

/-- A key-derivation function that agrees with the reference vector of the
tests (password "argon", salt "SALT", time 1, memory 65536, threads 1,
length 4 gives the digest 91 19 8a 85) and returns `keyLen` zero bytes for
every other input. It is deterministic and returns exactly `keyLen` bytes. -/
def vectorKDF : KDF := fun password salt time memory threads keyLen =>
  if password = ascii "argon" ∧ salt = ascii "SALT" ∧ time = 1 ∧ memory = 65536 ∧
      threads = 1 ∧ keyLen = 4 then [0x91, 0x19, 0x8a, 0x85]
  else List.replicate keyLen 0

/-- The parameters of the reference vector, as the tests build them. -/
def vectorParameters : Parameters :=
  { Time := 1, Memory := 65536, Threads := 1, Length := 4, Salt := ascii "SALT" }

/-- The record the tests expect for the reference vector. -/
def vectorRecord : Bytes := ascii "$argon2id$v=19$m=65536,t=1,p=1$U0FMVA$kRmKhQ"

/-- The record `GenerateFromPassword` itself writes for the reference vector. -/
def generatedRecord : Bytes := ascii "$argon2id$v=19$m65536,t=1,p=1$U0FMVA$kRmKhQ"

/-- A random source that fills every buffer with the byte 0x5a and reports
no error. -/
def vectorRead : RandomSource := fun n => (List.replicate n 0x5a, none)


/-! ## Facts about `Split` -/

theorem Split_ne_nil (sep : Nat) (s : Bytes) : Split sep s ≠ [] := by
  induction s with
  | nil => simp [Split]
  | cons c cs ih =>
    unfold Split
    split
    · simp
    · split <;> simp

theorem Split_of_not_mem (sep : Nat) (a : Bytes) (h : sep ∉ a) : Split sep a = [a] := by
  induction a with
  | nil => simp [Split]
  | cons c cs ih =>
    have hc : c ≠ sep := fun e => h (by simp [e])
    have hcs : sep ∉ cs := fun e => h (by simp [e])
    simp [Split, hc, ih hcs]

theorem Split_append_sep (sep : Nat) (a b : Bytes) (h : sep ∉ a) :
    Split sep (a ++ sep :: b) = a :: Split sep b := by
  induction a with
  | nil => simp [Split]
  | cons c cs ih =>
    have hc : c ≠ sep := fun e => h (by simp [e])
    have hcs : sep ∉ cs := fun e => h (by simp [e])
    simp [Split, hc, ih hcs]

theorem Split_length (sep : Nat) (s : Bytes) : (Split sep s).length = s.count sep + 1 := by
  induction s with
  | nil => simp [Split]
  | cons c cs ih =>
    unfold Split
    by_cases hc : c = sep
    · subst hc; simp [ih]
    · have hne := Split_ne_nil sep cs
      rw [if_neg hc, List.count_cons_of_ne (Ne.symm hc)]
      cases hs : Split sep cs with
      | nil => exact absurd hs hne
      | cons seg segs => rw [hs] at ih; simpa using ih

/-! ## Facts about `ConstantTimeCompare` -/

theorem or_eq_zero_left_right (a b : Nat) (h : a ||| b = 0) : a = 0 ∧ b = 0 := by
  have key : ∀ i, Nat.testBit a i = false ∧ Nat.testBit b i = false := by
    intro i
    have hi : Nat.testBit (a ||| b) i = false := by rw [h]; exact Nat.zero_testBit i
    rw [Nat.testBit_or] at hi
    simpa using hi
  constructor
  · apply Nat.eq_of_testBit_eq
    intro i; rw [(key i).1, Nat.zero_testBit]
  · apply Nat.eq_of_testBit_eq
    intro i; rw [(key i).2, Nat.zero_testBit]

theorem xorFold_eq_zero (x y : Bytes) (v : Nat) (hlen : x.length = y.length) :
    xorFold x y v = 0 ↔ v = 0 ∧ x = y := by
  induction x generalizing y v with
  | nil =>
    cases y with
    | nil => simp [xorFold]
    | cons b y => simp at hlen
  | cons a x ih =>
    cases y with
    | nil => simp at hlen
    | cons b y =>
      have hl : x.length = y.length := by simpa using hlen
      simp only [xorFold, ih y _ hl, List.cons.injEq]
      constructor
      · rintro ⟨h1, h2⟩
        have h3 := or_eq_zero_left_right _ _ h1
        exact ⟨h3.1, Nat.xor_eq_zero.mp h3.2, h2⟩
      · rintro ⟨h1, h2, h3⟩
        subst h1 h2 h3
        simp

theorem ConstantTimeCompare_eq_one (x y : Bytes) : ConstantTimeCompare x y = 1 ↔ x = y := by
  unfold ConstantTimeCompare
  by_cases hlen : x.length = y.length
  · simp only [hlen, ne_eq, not_true_eq_false, if_false]
    have := xorFold_eq_zero x y 0 hlen
    by_cases h0 : xorFold x y 0 = 0
    · simp only [h0, if_true, true_iff]
      exact (this.mp h0).2
    · simp only [h0, if_false]
      constructor
      · intro h; omega
      · intro h; exact absurd (this.mpr ⟨rfl, h⟩) h0
  · simp only [ne_eq, hlen, not_false_eq_true, if_true]
    constructor
    · intro h; omega
    · intro h; exact absurd (by rw [h]) hlen


/-! ## Facts about the decimal digits of `%d` -/

theorem fmtDigits_digit (fuel u : Nat) : ∀ c ∈ fmtDigits fuel u, 48 ≤ c ∧ c ≤ 57 := by
  induction fuel generalizing u with
  | zero => simp [fmtDigits]
  | succ fuel ih =>
    intro c hc
    unfold fmtDigits at hc
    split at hc
    · simp at hc; omega
    · rcases List.mem_append.mp hc with h | h
      · exact ih _ c h
      · simp at h; omega

theorem fmtDigits_ne_nil (fuel u : Nat) : fmtDigits (fuel + 1) u ≠ [] := by
  unfold fmtDigits
  split <;> simp

theorem fmtDigits_length_le (fuel u : Nat) : (fmtDigits fuel u).length ≤ fuel := by
  induction fuel generalizing u with
  | zero => simp [fmtDigits]
  | succ fuel ih =>
    unfold fmtDigits
    split
    · simp
    · have := ih (u / 10)
      simp only [List.length_append, List.length_singleton]
      omega

theorem fmtInteger_digit (u : Nat) : ∀ c ∈ fmtInteger u, 48 ≤ c ∧ c ≤ 57 :=
  fmtDigits_digit 20 u

theorem fmtInteger_ne_nil (u : Nat) : fmtInteger u ≠ [] := fmtDigits_ne_nil 19 u

theorem fmtInteger_length_le (u : Nat) : (fmtInteger u).length ≤ 20 :=
  fmtDigits_length_le 20 u

theorem dollar_not_mem_fmtInteger (u : Nat) : dollar ∉ fmtInteger u := by
  intro h
  have := fmtInteger_digit u dollar h
  simp [dollar] at this

theorem parseUintLoop_append (tok xs ys : Bytes) (n : Nat) :
    parseUintLoop tok (xs ++ ys) n =
      match parseUintLoop tok xs n with
      | .ok m => parseUintLoop tok ys m
      | .error e => .error e := by
  induction xs generalizing n with
  | nil => simp [parseUintLoop]
  | cons c cs ih =>
    simp only [List.cons_append, parseUintLoop]
    split
    · rfl
    · split
      · rfl
      · exact ih _

theorem parseUintLoop_fmtDigits (tok : Bytes) (fuel u : Nat) (h : u < 10 ^ fuel)
    (hu : u ≤ maxUint64) : parseUintLoop tok (fmtDigits fuel u) 0 = .ok u := by
  induction fuel generalizing u with
  | zero =>
    have : u = 0 := by simpa using h
    subst this
    simp [fmtDigits, parseUintLoop]
  | succ fuel ih =>
    have hmax : maxUint64 = 18446744073709551615 := by norm_num [maxUint64]
    unfold fmtDigits
    split
    · simp only [parseUintLoop, hmax]
      rw [if_neg (by omega), if_neg (by omega)]
      congr 1
      omega
    · have h1 : u / 10 < 10 ^ fuel := by
        rw [pow_succ] at h
        omega
      have h2 : u / 10 ≤ maxUint64 := by omega
      rw [parseUintLoop_append, ih _ h1 h2]
      simp only [parseUintLoop, hmax]
      rw [hmax] at hu
      rw [if_neg (by omega), if_neg (by omega)]
      congr 1
      omega

theorem parseUintLoop_fmtInteger (tok : Bytes) (u : Nat) (hu : u < 2 ^ 64) :
    parseUintLoop tok (fmtInteger u) 0 = .ok u := by
  apply parseUintLoop_fmtDigits
  · calc u < 2 ^ 64 := hu
      _ ≤ 10 ^ 20 := by norm_num
  · have : maxUint64 = 18446744073709551615 := by norm_num [maxUint64]
    rw [this]
    have : (2 : Nat) ^ 64 = 18446744073709551616 := by norm_num
    omega

/-! ## Facts about base64 -/

set_option maxRecDepth 100000 in
theorem decodeMap_encodeChar_lt : ∀ i, i < 64 → decodeMap (encodeChar i) = some i := by
  decide

theorem decodeMap_encodeChar (x : Nat) : decodeMap (encodeChar (x % 64)) = some (x % 64) :=
  decodeMap_encodeChar_lt _ (Nat.mod_lt _ (by norm_num))

theorem decodeMap_dollar : decodeMap dollar = none := by decide

theorem EncodeToString_alphabet (bs : Bytes) :
    ∀ c ∈ EncodeToString bs, (decodeMap c).isSome = true := by
  induction bs using EncodeToString.induct with
  | case1 => simp [EncodeToString]
  | case2 b0 => simp [EncodeToString, decodeMap_encodeChar]
  | case3 b0 b1 => simp [EncodeToString, decodeMap_encodeChar]
  | case4 b0 b1 b2 rest ih =>
    intro c hc
    simp only [EncodeToString, List.mem_cons] at hc
    rcases hc with h | h | h | h | h
    · simp [h, decodeMap_encodeChar]
    · simp [h, decodeMap_encodeChar]
    · simp [h, decodeMap_encodeChar]
    · simp [h, decodeMap_encodeChar]
    · exact ih c h

theorem dollar_not_mem_EncodeToString (bs : Bytes) : dollar ∉ EncodeToString bs := by
  intro h
  have := EncodeToString_alphabet bs dollar h
  rw [decodeMap_dollar] at this
  simp at this

theorem decodeLoop_EncodeToString (bs : Bytes) (h : IsBytes bs) (si : Nat) :
    decodeLoop (EncodeToString bs) si [] = .ok bs := by
  induction bs using EncodeToString.induct generalizing si with
  | case1 => simp [EncodeToString, decodeLoop]
  | case2 b0 =>
    have h0 : b0 < 256 := h b0 (by simp)
    simp only [EncodeToString, decodeLoop, decodeMap_encodeChar, List.length_nil,
      List.nil_append, List.length_singleton, List.length_cons, List.singleton_append,
      quantumBytes, List.getD_cons_zero, List.getD_cons_succ, List.getD_nil]
    simp
    omega
  | case3 b0 b1 =>
    have h0 : b0 < 256 := h b0 (by simp)
    have h1 : b1 < 256 := h b1 (by simp)
    simp only [EncodeToString, decodeLoop, decodeMap_encodeChar, List.length_nil,
      List.nil_append, List.length_singleton, List.length_cons, List.singleton_append,
      quantumBytes, List.getD_cons_zero, List.getD_cons_succ, List.getD_nil]
    simp
    omega
  | case4 b0 b1 b2 rest ih =>
    have h0 : b0 < 256 := h b0 (by simp)
    have h1 : b1 < 256 := h b1 (by simp)
    have h2 : b2 < 256 := h b2 (by simp)
    have hr : IsBytes rest := fun b hb => h b (by simp [hb])
    simp only [EncodeToString, decodeLoop, decodeMap_encodeChar, List.length_nil,
      List.nil_append, List.length_singleton, List.length_cons, List.singleton_append,
      quantumBytes, List.getD_cons_zero, List.getD_cons_succ, List.getD_nil, ih hr]
    simp
    omega

theorem DecodeString_EncodeToString (bs : Bytes) (h : IsBytes bs) :
    DecodeString (EncodeToString bs) = .ok bs :=
  decodeLoop_EncodeToString bs h 0


/-! ## Facts about the scanner -/

theorem runesFuel_ascii (p : Bytes) (h : ∀ b ∈ p, b < 128) (fuel : Nat)
    (hf : p.length ≤ fuel) : runesFuel fuel p = p := by
  induction p generalizing fuel with
  | nil => cases fuel <;> simp [runesFuel]
  | cons b p ih =>
    cases fuel with
    | zero => simp at hf
    | succ fuel =>
      have hb : b < 128 := h b (by simp)
      have hp : ∀ c ∈ p, c < 128 := fun c hc => h c (by simp [hc])
      have hl : p.length ≤ fuel := by simpa using hf
      have hd : DecodeRune (b :: p) = (b, 1) := by
        simp only [DecodeRune]
        rw [if_pos (by omega)]
      simp only [runesFuel, hd, List.drop_succ_cons, List.drop_zero, ih hp fuel hl]

theorem runes_ascii (p : Bytes) (h : ∀ b ∈ p, b < 128) : runes p = p :=
  runesFuel_ascii p h p.length (le_refl _)

theorem advance_append (lit rest : List Nat) (count : Nat)
    (h : count + lit.length ≤ hugeWid) :
    advance lit (lit ++ rest) count = .ok ⟨rest, count + lit.length⟩ := by
  induction lit generalizing count with
  | nil => simp [advance]
  | cons c lit ih =>
    have hl : count + 1 + lit.length ≤ hugeWid := by
      simp only [List.length_cons] at h; omega
    have hc : ¬ count ≥ hugeWid := by omega
    simp only [List.cons_append, advance, ss.getRune, hc, if_false, ne_eq, not_true_eq_false,
      List.append_eq, ih (count + 1) hl, List.length_cons]
    congr 2
    omega

theorem isSpace_digit (r : Nat) (h : 48 ≤ r ∧ r ≤ 57) : isSpace r = false := by
  simp only [isSpace, inRange, Bool.or_eq_false_iff, decide_eq_false_iff_not]
  omega

theorem SkipSpace_digit (r : Nat) (rest : List Nat) (count : Nat) (h : 48 ≤ r ∧ r ≤ 57) :
    SkipSpace (r :: rest) count = .ok ⟨r :: rest, count⟩ := by
  unfold SkipSpace
  split
  · rfl
  · rw [if_neg (by omega), if_neg (by omega), if_pos (isSpace_digit r h)]

theorem acceptDigits_append (ds rest : List Nat) (count : Nat) (buf : Bytes)
    (hd : ∀ c ∈ ds, 48 ≤ c ∧ c ≤ 57)
    (hrest : ∀ r ∈ rest.head?, ¬ (48 ≤ r ∧ r ≤ 57))
    (hc : count + ds.length ≤ hugeWid) :
    acceptDigits (ds ++ rest) count buf = (buf ++ ds, ⟨rest, count + ds.length⟩) := by
  induction ds generalizing count buf with
  | nil =>
    cases rest with
    | nil => simp [acceptDigits]
    | cons r rs =>
      have hr : ¬ (48 ≤ r ∧ r ≤ 57) := hrest r (by simp)
      simp only [List.nil_append, acceptDigits, hr, if_false, List.append_nil, List.length_nil,
        Nat.add_zero]
      split <;> rfl
  | cons d ds ih =>
    have hdd : 48 ≤ d ∧ d ≤ 57 := hd d (by simp)
    have hds : ∀ c ∈ ds, 48 ≤ c ∧ c ≤ 57 := fun c hcc => hd c (by simp [hcc])
    have hl : count + 1 + ds.length ≤ hugeWid := by
      simp only [List.length_cons] at hc; omega
    have hcnt : ¬ count ≥ hugeWid := by omega
    simp only [List.cons_append, acceptDigits, hcnt, if_false, hdd, and_self, if_true,
      List.append_eq, ih (count + 1) (buf ++ [d]) hds hl, List.append_assoc,
      List.singleton_append]
    congr 2
    simp only [List.length_cons]
    omega

theorem scanVerb_fmtInteger (bitSize n : Nat) (rest : List Nat) (count : Nat)
    (hn : n < 2 ^ bitSize) (hb : bitSize ≤ 64)
    (hrest : ∀ r ∈ rest.head?, ¬ (48 ≤ r ∧ r ≤ 57))
    (hc : count + (fmtInteger n).length ≤ hugeWid) :
    scanVerb bitSize ⟨fmtInteger n ++ rest, count⟩ =
      .ok (n, ⟨rest, count + (fmtInteger n).length⟩) := by
  have hdig := fmtInteger_digit n
  have hacc := acceptDigits_append (fmtInteger n) rest count [] hdig hrest hc
  have hn64 : n < 2 ^ 64 := lt_of_lt_of_le hn (Nat.pow_le_pow_right (by norm_num) hb)
  have hparse := parseUintLoop_fmtInteger (fmtInteger n) n hn64
  cases hf : fmtInteger n with
  | nil => exact absurd hf (fmtInteger_ne_nil n)
  | cons d ds =>
    rw [hf] at hdig hacc hparse hc
    have hd : 48 ≤ d ∧ d ≤ 57 := hdig d (by simp)
    have hcnt : ¬ count ≥ hugeWid := by
      simp only [List.length_cons] at hc; omega
    simp only [List.nil_append] at hacc
    simp only [scanVerb, scanUint, List.cons_append, SkipSpace_digit _ _ _ hd, ss.getRune, hcnt,
      if_false]
    rw [← List.cons_append, hacc]
    simp only [hparse, Nat.mod_eq_of_lt hn, ne_eq, not_true_eq_false, if_false]

theorem ascii_lt_128 : (∀ b ∈ ascii "m", b < 128) ∧ (∀ b ∈ ascii ",t=", b < 128) ∧
    (∀ b ∈ ascii ",p=", b < 128) := by decide

/-- Scanning the block that `GenerateFromPassword` prints recovers the three numbers. -/
theorem Sscanf_block (memory time threads : Nat) (p : Parameters)
    (hm : memory < 2 ^ 32) (ht : time < 2 ^ 32) (hth : threads < 2 ^ 8) :
    Sscanf (ascii "m" ++ fmtInteger memory ++ ascii ",t=" ++ fmtInteger time ++
        ascii ",p=" ++ fmtInteger threads) p =
      ({ p with Memory := memory, Time := time, Threads := threads }, none) := by
  have hascii : ∀ b ∈ ascii "m" ++ fmtInteger memory ++ ascii ",t=" ++ fmtInteger time ++
      ascii ",p=" ++ fmtInteger threads, b < 128 := by
    intro b hb
    simp only [List.mem_append] at hb
    rcases hb with ((((h | h) | h) | h) | h) | h
    · exact ascii_lt_128.1 b h
    · have := fmtInteger_digit memory b h; omega
    · exact ascii_lt_128.2.1 b h
    · have := fmtInteger_digit time b h; omega
    · exact ascii_lt_128.2.2 b h
    · have := fmtInteger_digit threads b h; omega
  have l1 := fmtInteger_length_le memory
  have l2 := fmtInteger_length_le time
  have l3 := fmtInteger_length_le threads
  have hw : hugeWid = 1073741824 := by norm_num [hugeWid]
  have e1 : (ascii "m").length = 1 := by decide
  have e2 : (ascii ",t=").length = 3 := by decide
  have e3 : (ascii ",p=").length = 3 := by decide
  have r1 : ∀ (tl : List Nat), ∀ r ∈ (ascii ",t=" ++ tl).head?, ¬ (48 ≤ r ∧ r ≤ 57) := by
    intro tl r hr
    have : r = 44 := by
      have : (ascii ",t=" ++ tl).head? = some 44 := by rfl
      rw [this] at hr
      simpa using hr.symm
    omega
  have r2 : ∀ (tl : List Nat), ∀ r ∈ (ascii ",p=" ++ tl).head?, ¬ (48 ≤ r ∧ r ≤ 57) := by
    intro tl r hr
    have : r = 44 := by
      have : (ascii ",p=" ++ tl).head? = some 44 := by rfl
      rw [this] at hr
      simpa using hr.symm
    omega
  have r3 : ∀ r ∈ ([] : List Nat).head?, ¬ (48 ≤ r ∧ r ≤ 57) := by simp
  unfold Sscanf
  rw [runes_ascii _ hascii]
  simp only [List.append_assoc]
  rw [advance_append _ _ _ (by rw [e1, hw]; omega)]
  simp only []
  rw [scanVerb_fmtInteger 32 memory _ _ hm (by norm_num) (r1 _) (by rw [e1, hw]; omega)]
  simp only []
  rw [advance_append _ _ _ (by rw [e1, e2, hw]; omega)]
  simp only []
  rw [scanVerb_fmtInteger 32 time _ _ ht (by norm_num) (r2 _) (by rw [e1, e2, hw]; omega)]
  simp only []
  rw [advance_append _ _ _ (by rw [e1, e2, e3, hw]; omega)]
  simp only []
  have := scanVerb_fmtInteger 8 threads [] (0 + (ascii "m").length + (fmtInteger memory).length +
    (ascii ",t=").length + (fmtInteger time).length + (ascii ",p=").length) hth (by norm_num) r3
    (by rw [e1, e2, e3, hw]; omega)
  rw [List.append_nil] at this
  rw [this]
  simp only [Nat.mod_eq_of_lt hm, Nat.mod_eq_of_lt ht, Nat.mod_eq_of_lt hth]


/-! ## Facts about the reference key-derivation function -/

theorem vectorKDF_ReturnsBytes : KDF.ReturnsBytes vectorKDF := by
  intro password salt time memory threads keyLen
  unfold vectorKDF
  split
  · decide
  · intro b hb
    have := (List.mem_replicate.mp hb).2
    omega

theorem vectorKDF_ExactLength : KDF.ExactLength vectorKDF := by
  intro password salt time memory threads keyLen
  unfold vectorKDF
  split
  · rename_i h; simp [h.2.2.2.2.2]
  · simp

/-! ## The segments of a generated record -/

/-- Where the library does not panic, `argon2.IDKey` returns the key. -/
theorem argon2_IDKey_ret (IDKey : KDF) (password salt : Bytes) (time memory threads keyLen : Nat)
    (ht : 1 ≤ time) (hth : 1 ≤ threads) (hl : 1 ≤ keyLen) :
    argon2_IDKey IDKey password salt time memory threads keyLen =
      .ret (IDKey password salt time memory threads keyLen) := by
  unfold argon2_IDKey
  rw [if_neg (by omega), if_neg (by omega), if_neg (by omega)]

/-- Where the library panics, `argon2.IDKey` returns nothing. -/
theorem argon2_IDKey_panic (IDKey : KDF) (password salt : Bytes)
    (time memory threads keyLen : Nat) (h : time = 0 ∨ threads = 0 ∨ keyLen = 0) :
    argon2_IDKey IDKey password salt time memory threads keyLen = .panicIDKey := by
  unfold argon2_IDKey
  by_cases h1 : time < 1
  · rw [if_pos h1]
  · rw [if_neg h1]
    by_cases h2 : threads < 1
    · rw [if_pos h2]
    · rw [if_neg h2]
      have h3 : keyLen = 0 := by omega
      rw [if_pos h3]

/-- The encoder returns the formatted record when time, threads and length
are at least 1. -/
theorem GenerateFromPassword_ret (IDKey : KDF) (password : Bytes) (p : Parameters)
    (ht : 1 ≤ p.Time) (hth : 1 ≤ p.Threads) (hl : 1 ≤ p.Length) :
    GenerateFromPassword IDKey password p =
      .ret (Sprintf Version p.Memory p.Time p.Threads (EncodeToString p.Salt)
        (EncodeToString (IDKey password p.Salt p.Time p.Memory p.Threads p.Length)), none) := by
  unfold GenerateFromPassword
  rw [argon2_IDKey_ret IDKey password p.Salt p.Time p.Memory p.Threads p.Length ht hth hl]

/-- The encoder panics when time, threads or length is 0. -/
theorem GenerateFromPassword_panic (IDKey : KDF) (password : Bytes) (p : Parameters)
    (h : p.Time = 0 ∨ p.Threads = 0 ∨ p.Length = 0) :
    GenerateFromPassword IDKey password p = .panicIDKey := by
  unfold GenerateFromPassword
  rw [argon2_IDKey_panic IDKey password p.Salt p.Time p.Memory p.Threads p.Length h]

/-- A formatted record splits into six segments: empty, the tag, the
version, the parameter block, the salt and the digest. -/
theorem Split_Sprintf (version memory time threads : Nat) (eSalt eHash : Bytes)
    (hs : dollar ∉ eSalt) (hh : dollar ∉ eHash) :
    Split dollar (Sprintf version memory time threads eSalt eHash) =
      [[], ascii "argon2id", ascii "v=" ++ fmtInteger version,
       ascii "m" ++ fmtInteger memory ++ ascii ",t=" ++ fmtInteger time ++
         ascii ",p=" ++ fmtInteger threads,
       eSalt, eHash] := by
  have e1 : ascii "$argon2id$v=" = [] ++ dollar :: (ascii "argon2id" ++ dollar :: ascii "v=") := by
    decide
  have e2 : ascii "$m" = dollar :: ascii "m" := by decide
  have e3 : ascii "$" = [dollar] := by decide
  have n1 : dollar ∉ ascii "argon2id" := by decide
  have n2 : dollar ∉ ascii "v=" ++ fmtInteger version := by
    have a0 : dollar ∉ ascii "v=" := by decide
    simp only [List.mem_append, not_or]
    exact ⟨a0, dollar_not_mem_fmtInteger _⟩
  have n3 : dollar ∉ ascii "m" ++ fmtInteger memory ++ ascii ",t=" ++ fmtInteger time ++
      ascii ",p=" ++ fmtInteger threads := by
    have a1 : dollar ∉ ascii "m" := by decide
    have a2 : dollar ∉ ascii ",t=" := by decide
    have a3 : dollar ∉ ascii ",p=" := by decide
    simp only [List.mem_append, not_or]
    exact ⟨⟨⟨⟨⟨a1, dollar_not_mem_fmtInteger _⟩, a2⟩, dollar_not_mem_fmtInteger _⟩, a3⟩,
      dollar_not_mem_fmtInteger _⟩
  have key : Sprintf version memory time threads eSalt eHash =
      [] ++ dollar :: (ascii "argon2id" ++ dollar :: ((ascii "v=" ++ fmtInteger version) ++
        dollar :: ((ascii "m" ++ fmtInteger memory ++ ascii ",t=" ++ fmtInteger time ++
          ascii ",p=" ++ fmtInteger threads) ++ dollar :: (eSalt ++ dollar :: eHash)))) := by
    simp only [Sprintf, e1, e2, e3, List.append_assoc, List.cons_append,
      List.nil_append, List.singleton_append]
  rw [key, Split_append_sep _ _ _ (by simp), Split_append_sep _ _ _ n1,
    Split_append_sep _ _ _ n2, Split_append_sep _ _ _ n3,
    Split_append_sep _ _ _ hs, Split_of_not_mem _ _ hh]

/-- Decoding a formatted record recovers the salt and the three costs; the
length it reports is the byte length of the salt, as a `uint32`. -/
theorem GetParametersFromHash_Sprintf (version memory time threads : Nat) (salt eHash : Bytes)
    (hm : memory < 2 ^ 32) (ht : time < 2 ^ 32) (hth : threads < 2 ^ 8)
    (hs : IsBytes salt) (hh : dollar ∉ eHash) :
    GetParametersFromHash (Sprintf version memory time threads (EncodeToString salt) eHash) =
      .ret ({ Time := time, Memory := memory, Threads := threads,
              Length := salt.length % 2 ^ 32, Salt := salt }, none) := by
  unfold GetParametersFromHash
  simp only [Split_Sprintf _ _ _ _ _ _ (dollar_not_mem_EncodeToString _) hh,
    List.get?_cons_succ, List.get?_cons_zero,
    Sscanf_block _ _ _ _ hm ht hth, DecodeString_EncodeToString _ hs]

/-- Verifying a formatted record: the stored digest is compared with the
key derived for the candidate with output length the byte length of the
salt, as a `uint32`; a panic of that derivation ends the call. -/
theorem CompareHashAndPassword_Sprintf (IDKey : KDF) (candidate : Bytes)
    (version memory time threads : Nat) (salt digest : Bytes)
    (hm : memory < 2 ^ 32) (ht : time < 2 ^ 32) (hth : threads < 2 ^ 8)
    (hs : IsBytes salt) (hd : IsBytes digest) :
    CompareHashAndPassword IDKey
        (Sprintf version memory time threads (EncodeToString salt) (EncodeToString digest))
        candidate =
      match argon2_IDKey IDKey candidate salt time memory threads (salt.length % 2 ^ 32) with
      | .panicIDKey => .panicIDKey
      | .panicIndexOutOfRange i n => .panicIndexOutOfRange i n
      | .ret cHash =>
        if digest = cHash then .ret none else .ret (some .ErrorPasswordMismatch) := by
  have hg := GetParametersFromHash_Sprintf version memory time threads salt
    (EncodeToString digest) hm ht hth hs (dollar_not_mem_EncodeToString _)
  unfold CompareHashAndPassword
  rw [hg]
  simp only [Split_Sprintf _ _ _ _ _ _ (dollar_not_mem_EncodeToString _)
      (dollar_not_mem_EncodeToString _), List.length_cons, List.length_nil,
    List.get?_cons_succ, List.get?_cons_zero, DecodeString_EncodeToString _ hd,
    ne_eq, not_true_eq_false, if_false, Nat.reduceAdd, ConstantTimeCompare_eq_one]
  cases argon2_IDKey IDKey candidate salt time memory threads (salt.length % 2 ^ 32) with
  | panicIDKey => rfl
  | panicIndexOutOfRange i n => rfl
  | ret cHash =>
    simp only []
    by_cases h : digest = cHash
    · simp only [h, not_true_eq_false, if_false, if_true]
    · simp only [h, not_false_eq_true, if_true, if_false]

/-! ## The parameter block of the documented format -/

theorem runes_cons_ascii (b : Nat) (p : Bytes) (hb : b < 128) : runes (b :: p) = b :: runes p := by
  have hd : DecodeRune (b :: p) = (b, 1) := by
    simp only [DecodeRune]
    rw [if_pos hb]
  simp only [runes, List.length_cons, runesFuel, hd, List.drop_succ_cons, List.drop_zero]

theorem SkipSpace_stop (r : Nat) (rest : List Nat) (count : Nat) (h13 : r ≠ 13) (h10 : r ≠ 10)
    (hsp : isSpace r = false) : SkipSpace (r :: rest) count = .ok ⟨r :: rest, count⟩ := by
  unfold SkipSpace
  split
  · rfl
  · simp [h13, h10, hsp]

theorem scanVerb_expectedInteger (bitSize r : Nat) (rest : List Nat) (count : Nat)
    (h13 : r ≠ 13) (h10 : r ≠ 10) (hsp : isSpace r = false) (hd : ¬ (48 ≤ r ∧ r ≤ 57))
    (hc : count < hugeWid) :
    scanVerb bitSize ⟨r :: rest, count⟩ = .error .expectedInteger := by
  have hcnt : ¬ count ≥ hugeWid := by omega
  simp only [scanVerb, scanUint, SkipSpace_stop r rest count h13 h10 hsp, ss.getRune, hcnt,
    if_false, acceptDigits, hd]

/-- A block that starts with `m=` is rejected by the format `m%d,t=%d,p=%d`:
after the literal `m` the scanner meets `=` where a digit must stand. -/
theorem Sscanf_m_equals (rest : Bytes) (p : Parameters) :
    Sscanf (ascii "m=" ++ rest) p = (p, some .expectedInteger) := by
  have e : ascii "m=" ++ rest = 109 :: 61 :: rest := by
    have : ascii "m=" = [109, 61] := by decide
    rw [this]; rfl
  have em : ascii "m" = [109] := by decide
  have hadv : advance [109] (109 :: 61 :: runes rest) 0 = .ok ⟨61 :: runes rest, 0 + 1⟩ :=
    advance_append [109] (61 :: runes rest) 0 (by norm_num [hugeWid])
  have hscan : scanVerb 32 ⟨61 :: runes rest, 0 + 1⟩ = .error .expectedInteger :=
    scanVerb_expectedInteger 32 61 (runes rest) (0 + 1) (by norm_num) (by norm_num) (by decide)
      (by norm_num) (by norm_num [hugeWid])
  rw [e, Sscanf, runes_cons_ascii _ _ (by norm_num), runes_cons_ascii _ _ (by norm_num), em,
    hadv]
  simp only [hscan]


/-! ## Different passwords with one digest -/

/-- Whatever key `argon2.IDKey` computes, as long as it has exactly the
requested number of bytes, two of the 257 two-byte passwords `[0, 0]`, ...,
`[0, 255]`, `[1, 0]` have the same one-byte key, and the record generated
for one verifies against the other. -/
theorem exists_colliding_passwords (IDKey : KDF) (hk : IDKey.ReturnsBytes)
    (hx : IDKey.ExactLength) :
    ∃ P P' : Bytes, IsBytes P ∧ IsBytes P' ∧ P ≠ P' ∧ ∃ out,
      GenerateFromPassword IDKey P
          { Time := 1, Memory := 65536, Threads := 1, Length := 1, Salt := [0] } =
        .ret (out, none) ∧
      CompareHashAndPassword IDKey out P' = .ret none := by
  have hshape : ∀ i : Nat, ∃ b, b < 256 ∧ IDKey [i / 256, i % 256] [0] 1 65536 1 1 = [b] := by
    intro i
    have hl := hx [i / 256, i % 256] [0] 1 65536 1 1
    have hbytes := hk [i / 256, i % 256] [0] 1 65536 1 1
    match hkey : IDKey [i / 256, i % 256] [0] 1 65536 1 1 with
    | [] => rw [hkey] at hl; simp at hl
    | [b] => exact ⟨b, hbytes b (by rw [hkey]; simp), rfl⟩
    | _ :: _ :: _ => rw [hkey] at hl; simp at hl
  choose g hg256 hg using hshape
  obtain ⟨x, y, hxy, hf⟩ :=
    Fintype.exists_ne_map_eq_of_card_lt (fun i : Fin 257 => (⟨g i.val, hg256 i.val⟩ : Fin 256))
      (by rw [Fintype.card_fin, Fintype.card_fin]; norm_num)
  have hgxy : g x.val = g y.val := by simpa using congrArg Fin.val hf
  have hbx : ∀ i : Fin 257, IsBytes [i.val / 256, i.val % 256] := by
    intro i b hb
    have hi := i.isLt
    simp only [List.mem_cons, List.mem_singleton, List.not_mem_nil, or_false] at hb
    rcases hb with h | h <;> omega
  refine ⟨[x.val / 256, x.val % 256], [y.val / 256, y.val % 256], hbx x, hbx y, ?_, _,
    GenerateFromPassword_ret IDKey _ _ (by norm_num) (by norm_num) (by norm_num), ?_⟩
  · intro h
    have h1 : x.val / 256 = y.val / 256 := (List.cons.inj h).1
    have h2 : x.val % 256 = y.val % 256 := (List.cons.inj (List.cons.inj h).2).1
    exact hxy (Fin.ext (by omega))
  · have hd : IsBytes (IDKey [x.val / 256, x.val % 256] [0] 1 65536 1 1) := hk _ _ _ _ _ _
    have hs : IsBytes ([0] : Bytes) := by decide
    have e : ([0] : Bytes).length % 2 ^ 32 = 1 := by norm_num
    rw [CompareHashAndPassword_Sprintf IDKey _ Version 65536 1 1 [0] _ (by norm_num)
      (by norm_num) (by norm_num) hs hd, e,
      argon2_IDKey_ret IDKey _ [0] 1 65536 1 1 (by norm_num) (by norm_num) (by norm_num)]
    simp only [hg, hgxy, if_true]

/-! ## The results of the decoder and the verifier in terms of the segments -/

theorem decodeLoop_error (src : Bytes) (si : Nat) (dbuf : List Nat) (e : GoError)
    (h : decodeLoop src si dbuf = .error e) : ∃ offset, e = .CorruptInputError offset := by
  induction src generalizing si dbuf with
  | nil =>
    unfold decodeLoop at h
    split at h
    · cases h
    · split at h
      · cases h; exact ⟨_, rfl⟩
      · cases h
  | cons c src ih =>
    unfold decodeLoop at h
    split at h
    · split at h
      · split at h
        · cases h
        · rename_i e2 heq
          cases h
          exact ih _ _ heq
      · exact ih _ _ h
    · split at h
      · exact ih _ _ h
      · cases h; exact ⟨_, rfl⟩

theorem DecodeString_error (s : Bytes) (e : GoError) (h : DecodeString s = .error e) :
    ∃ offset, e = .CorruptInputError offset :=
  decodeLoop_error s 0 [] e h

/-- The decoder reads the fourth and the fifth segment and nothing else. -/
theorem GetParametersFromHash_of_sections (hash section3 section4 : Bytes)
    (h3 : (Split dollar hash).get? 3 = some section3)
    (h4 : (Split dollar hash).get? 4 = some section4) :
    GetParametersFromHash hash =
      match Sscanf section3 {} with
      | (p, some err) => .ret (p, some (.scanError err))
      | (p, none) =>
        match DecodeString section4 with
        | .error err => .ret (p, some err)
        | .ok salt => .ret ({ p with Length := salt.length % 2 ^ 32, Salt := salt }, none) := by
  unfold GetParametersFromHash
  simp only [h3, h4]

/-- An error of the decoder is a scan error or a base64 error. -/
theorem GetParametersFromHash_error (hash : Bytes) (q : Parameters) (e : GoError)
    (h : GetParametersFromHash hash = .ret (q, some e)) :
    (∃ s, e = .scanError s) ∨ ∃ offset, e = .CorruptInputError offset := by
  cases h3 : (Split dollar hash).get? 3 with
  | none =>
    have hg : GetParametersFromHash hash = .panicIndexOutOfRange 3 (Split dollar hash).length := by
      simp only [GetParametersFromHash, h3]
    rw [hg] at h
    cases h
  | some section3 =>
    cases h4 : (Split dollar hash).get? 4 with
    | none =>
      have hg : GetParametersFromHash hash =
          match Sscanf section3 {} with
          | (p, some err) => .ret (p, some (.scanError err))
          | (_, none) => .panicIndexOutOfRange 4 (Split dollar hash).length := by
        simp only [GetParametersFromHash, h3, h4]
      rw [hg] at h
      cases hsc : Sscanf section3 {} with
      | mk p err =>
        rw [hsc] at h
        cases err with
        | some err => cases h; exact Or.inl ⟨_, rfl⟩
        | none => cases h
    | some section4 =>
      rw [GetParametersFromHash_of_sections hash section3 section4 h3 h4] at h
      cases hsc : Sscanf section3 {} with
      | mk p err =>
        rw [hsc] at h
        cases err with
        | some err => cases h; exact Or.inl ⟨_, rfl⟩
        | none =>
          cases hd : DecodeString section4 with
          | error err =>
            rw [hd] at h
            cases h
            exact Or.inr (DecodeString_error _ _ hd)
          | ok salt =>
            rw [hd] at h
            cases h

theorem length_eq_six (l : List Bytes) (h : l.length = 6) :
    ∃ a b c d e f, l = [a, b, c, d, e, f] := by
  match l, h with
  | [a, b, c, d, e, f], _ => exact ⟨a, b, c, d, e, f, rfl⟩

/-- The verifier on a hash of six segments, in terms of the segments: the
third segment does not occur. -/
theorem CompareHashAndPassword_of_sections (IDKey : KDF) (hash password : Bytes)
    (a b c d e f : Bytes) (hs : Split dollar hash = [a, b, c, d, e, f]) :
    CompareHashAndPassword IDKey hash password =
      if b ≠ ascii "argon2id" then .ret (some .ErrorInvalidVersion)
      else
        match DecodeString f with
        | .error err => .ret (some err)
        | .ok dHash =>
          match Sscanf d {} with
          | (_, some err) => .ret (some (.scanError err))
          | (p, none) =>
            match DecodeString e with
            | .error err => .ret (some err)
            | .ok salt =>
              match argon2_IDKey IDKey password salt p.Time p.Memory p.Threads
                  (salt.length % 2 ^ 32) with
              | .panicIDKey => .panicIDKey
              | .panicIndexOutOfRange i n => .panicIndexOutOfRange i n
              | .ret cHash =>
                if ConstantTimeCompare dHash cHash ≠ 1 then
                  .ret (some .ErrorPasswordMismatch)
                else .ret none := by
  have hg := GetParametersFromHash_of_sections hash d e (by rw [hs]; rfl) (by rw [hs]; rfl)
  unfold CompareHashAndPassword
  rw [hg]
  simp only [hs, List.length_cons, List.length_nil, List.get?_cons_succ, List.get?_cons_zero,
    ne_eq, not_true_eq_false, if_false, Nat.reduceAdd]
  split
  · rfl
  · cases hf : DecodeString f with
    | error err => rfl
    | ok dHash =>
      cases hsc : Sscanf d {} with
      | mk p err =>
        cases err with
        | some err => rfl
        | none =>
          cases he : DecodeString e with
          | error err => rfl
          | ok salt => rfl

theorem vectorRead_KeepsLength : RandomSource.KeepsLength vectorRead := by
  intro n
  simp [vectorRead]

/-- A successful run of the decoder: the block scanned without error and
the fifth segment decoded to the salt. -/
theorem GetParametersFromHash_ok (hash : Bytes) (p : Parameters)
    (h : GetParametersFromHash hash = .ret (p, none)) :
    ∃ section3 section4 q,
      (Split dollar hash).get? 3 = some section3 ∧ (Split dollar hash).get? 4 = some section4 ∧
        Sscanf section3 {} = (q, none) ∧ DecodeString section4 = .ok p.Salt ∧
        p = { q with Length := p.Salt.length % 2 ^ 32, Salt := p.Salt } := by
  cases h3 : (Split dollar hash).get? 3 with
  | none =>
    have hg : GetParametersFromHash hash = .panicIndexOutOfRange 3 (Split dollar hash).length := by
      simp only [GetParametersFromHash, h3]
    rw [hg] at h
    cases h
  | some section3 =>
    cases h4 : (Split dollar hash).get? 4 with
    | none =>
      have hg : GetParametersFromHash hash =
          match Sscanf section3 {} with
          | (p, some err) => .ret (p, some (.scanError err))
          | (_, none) => .panicIndexOutOfRange 4 (Split dollar hash).length := by
        simp only [GetParametersFromHash, h3, h4]
      rw [hg] at h
      cases hsc : Sscanf section3 {} with
      | mk q err =>
        rw [hsc] at h
        cases err with
        | some err => cases h
        | none => cases h
    | some section4 =>
      rw [GetParametersFromHash_of_sections hash section3 section4 h3 h4] at h
      cases hsc : Sscanf section3 {} with
      | mk q err =>
        rw [hsc] at h
        cases err with
        | some err => cases h
        | none =>
          cases hd : DecodeString section4 with
          | error err =>
            rw [hd] at h
            cases h
          | ok salt =>
            rw [hd] at h
            cases h
            exact ⟨section3, section4, q, rfl, rfl, hsc, hd, rfl⟩

/-- The record generated for a salt of `n` zero bytes decodes to a salt of
`n` bytes and to the length `n` reduced modulo 2^32. -/
theorem GetParametersFromHash_zero_salt (n : Nat) :
    ∃ (out : Bytes) (q : Parameters),
      GenerateFromPassword vectorKDF (ascii "argon")
          { Time := 1, Memory := 65536, Threads := 1, Length := 4,
            Salt := List.replicate n 0 } =
        .ret (out, none) ∧
      GetParametersFromHash out = .ret (q, none) ∧
      q.Salt.length = n ∧ q.Length = n % 2 ^ 32 := by
  have hb : IsBytes (List.replicate n 0) := by
    intro b hb
    have := (List.mem_replicate.mp hb).2
    omega
  refine ⟨_, _, GenerateFromPassword_ret vectorKDF (ascii "argon")
      { Time := 1, Memory := 65536, Threads := 1, Length := 4, Salt := List.replicate n 0 }
      (by norm_num) (by norm_num) (by norm_num),
    GetParametersFromHash_Sprintf Version 65536 1 1 (List.replicate n 0) _ (by norm_num)
      (by norm_num) (by norm_num) hb (dollar_not_mem_EncodeToString _), ?_, ?_⟩
  · simp only [List.length_replicate]
  · simp only [List.length_replicate]

/-- Verifying a generated record, for parameters on which the encoder
returns: the stored digest is compared with the key derived for the
candidate with output length the byte length of the salt, as a `uint32`. -/
theorem CompareHashAndPassword_generated (IDKey : KDF) (hk : IDKey.ReturnsBytes)
    (password candidate : Bytes) (p : Parameters) (hp : p.WellTyped)
    (ht1 : 1 ≤ p.Time) (hth1 : 1 ≤ p.Threads) (hl1 : 1 ≤ p.Length) :
    ∃ out, GenerateFromPassword IDKey password p = .ret (out, none) ∧
      CompareHashAndPassword IDKey out candidate =
        match argon2_IDKey IDKey candidate p.Salt p.Time p.Memory p.Threads
            (p.Salt.length % 2 ^ 32) with
        | .panicIDKey => .panicIDKey
        | .panicIndexOutOfRange i n => .panicIndexOutOfRange i n
        | .ret cHash =>
          if IDKey password p.Salt p.Time p.Memory p.Threads p.Length = cHash then .ret none
          else .ret (some .ErrorPasswordMismatch) := by
  obtain ⟨ht, hm, hth, _, hs⟩ := hp
  exact ⟨_, GenerateFromPassword_ret IDKey password p ht1 hth1 hl1,
    CompareHashAndPassword_Sprintf IDKey candidate Version p.Memory p.Time p.Threads p.Salt _
      hm ht hth hs (hk _ _ _ _ _ _)⟩

/-- Decoding a generated record, for parameters on which the encoder
returns. -/
theorem GetParametersFromHash_generated (IDKey : KDF) (password : Bytes) (p : Parameters)
    (hp : p.WellTyped) (ht1 : 1 ≤ p.Time) (hth1 : 1 ≤ p.Threads) (hl1 : 1 ≤ p.Length) :
    ∃ out, GenerateFromPassword IDKey password p = .ret (out, none) ∧
      GetParametersFromHash out =
        .ret ({ Time := p.Time, Memory := p.Memory, Threads := p.Threads,
                Length := p.Salt.length % 2 ^ 32, Salt := p.Salt }, none) := by
  obtain ⟨ht, hm, hth, _, hs⟩ := hp
  exact ⟨_, GenerateFromPassword_ret IDKey password p ht1 hth1 hl1,
    GetParametersFromHash_Sprintf Version p.Memory p.Time p.Threads p.Salt _ hm ht hth hs
      (dollar_not_mem_EncodeToString _)⟩

/-- The verifier on a hash that passes every check before the key
derivation: the stored digest is compared with the key derived from the
decoded parameters; a panic of that derivation ends the call. -/
theorem CompareHashAndPassword_decoded (IDKey : KDF) (hash password section5 D : Bytes)
    (p : Parameters) (h6 : (Split dollar hash).length = 6)
    (htag : (Split dollar hash).get? 1 = some (ascii "argon2id"))
    (h5 : (Split dollar hash).get? 5 = some section5)
    (hD : DecodeString section5 = .ok D)
    (hp : GetParametersFromHash hash = .ret (p, none)) :
    CompareHashAndPassword IDKey hash password =
      match argon2_IDKey IDKey password p.Salt p.Time p.Memory p.Threads p.Length with
      | .panicIDKey => .panicIDKey
      | .panicIndexOutOfRange i n => .panicIndexOutOfRange i n
      | .ret cHash =>
        if D = cHash then .ret none else .ret (some .ErrorPasswordMismatch) := by
  unfold CompareHashAndPassword
  simp only [ne_eq, h6, not_true_eq_false, if_false, htag, h5, hD, hp,
    ConstantTimeCompare_eq_one]
  cases argon2_IDKey IDKey password p.Salt p.Time p.Memory p.Threads p.Length with
  | panicIDKey => rfl
  | panicIndexOutOfRange i n => rfl
  | ret cHash =>
    simp only []
    by_cases hd : D = cHash
    · simp only [hd, not_true_eq_false, if_false, if_true]
    · simp only [hd, not_false_eq_true, if_true, if_false]

/-! ## The claims -/

/-- C1 (code defect): for the reference vector of the tests the encoder
writes `m65536` where the tests and the documented format have `m=65536`,
and for no input at all does it return a record that starts with
`$argon2id$v=19$m=`. -/
theorem C1_GenerateFromPassword_omits_equals_sign :
    GenerateFromPassword vectorKDF (ascii "argon") vectorParameters =
        .ret (ascii "$argon2id$v=19$m65536,t=1,p=1$U0FMVA$kRmKhQ", none) ∧
      GenerateFromPassword vectorKDF (ascii "argon") vectorParameters ≠
        .ret (vectorRecord, none) ∧
      ∀ (IDKey : KDF) (password : Bytes) (p : Parameters) (rest : Bytes) (e : Option GoError),
        GenerateFromPassword IDKey password p ≠
          .ret (ascii "$argon2id$v=19$m=" ++ rest, e) := by
  refine ⟨by decide, by decide, ?_⟩
  intro IDKey password p rest e h
  have e1 : ascii "$argon2id$v=" ++ fmtInteger Version ++ ascii "$m" = ascii "$argon2id$v=19$m" := by
    decide
  have e2 : ascii "$argon2id$v=19$m=" = ascii "$argon2id$v=19$m" ++ [61] := by decide
  unfold GenerateFromPassword at h
  cases hk : argon2_IDKey IDKey password p.Salt p.Time p.Memory p.Threads p.Length with
  | panicIDKey => rw [hk] at h; cases h
  | panicIndexOutOfRange i n => rw [hk] at h; cases h
  | ret hash =>
    rw [hk] at h
    have h0 : Sprintf Version p.Memory p.Time p.Threads (EncodeToString p.Salt)
        (EncodeToString hash) = ascii "$argon2id$v=19$m=" ++ rest := by
      injection h with h
      exact (Prod.mk.inj h).1
    cases hf : fmtInteger p.Memory with
    | nil => exact absurd hf (fmtInteger_ne_nil _)
    | cons d ds =>
      have hd : 48 ≤ d ∧ d ≤ 57 := fmtInteger_digit p.Memory d (by rw [hf]; simp)
      simp only [Sprintf, e1, e2, hf, List.append_assoc, List.cons_append,
        List.nil_append, List.singleton_append] at h0
      have h2 := List.append_cancel_left h0
      have h3 : d = 61 := (List.cons.inj h2).1
      omega

/-- C2 (counterexample): with a requested length of 5 and a 4-byte salt the
record generated for a password does not verify against that password; and
with time 0, or with the length 0 and the empty salt that
`NewParameters(1, 65536, 1, 0)` builds, the encoder panics in
`argon2.IDKey` whatever key the primitive computes, so that nothing is
verified. -/
theorem C2_counterexample_length_differs_from_salt_length :
    (KDF.ExactLength vectorKDF ∧ KDF.ReturnsBytes vectorKDF ∧
        Parameters.WellTyped
          { Time := 1, Memory := 65536, Threads := 1, Length := 5, Salt := ascii "SALT" } ∧
        ∃ out,
          GenerateFromPassword vectorKDF (ascii "argon")
              { Time := 1, Memory := 65536, Threads := 1, Length := 5, Salt := ascii "SALT" } =
            .ret (out, none) ∧
          CompareHashAndPassword vectorKDF out (ascii "argon") =
            .ret (some .ErrorPasswordMismatch)) ∧
      (∀ (IDKey : KDF) (password : Bytes),
        GenerateFromPassword IDKey password
            { Time := 0, Memory := 65536, Threads := 1, Length := 4, Salt := ascii "SALT" } =
          .panicIDKey) ∧
      ∀ (IDKey : KDF) (password : Bytes),
        GenerateFromPassword IDKey password
            { Time := 1, Memory := 65536, Threads := 1, Length := 0, Salt := [] } =
          .panicIDKey :=
  ⟨⟨vectorKDF_ExactLength, vectorKDF_ReturnsBytes, by decide,
      ascii "$argon2id$v=19$m65536,t=1,p=1$U0FMVA$AAAAAAA", by decide, by decide⟩,
    fun IDKey password => GenerateFromPassword_panic IDKey password _ (Or.inl rfl),
    fun IDKey password => GenerateFromPassword_panic IDKey password _ (Or.inr (Or.inr rfl))⟩

/-- C2 (amended): for every password and all parameters with time, threads
and length at least 1 whose `Length` equals the byte length of the salt,
the encoder returns a record and that record verifies against the same
password. -/
theorem C2_verify_generated_record (IDKey : KDF) (password : Bytes) (p : Parameters)
    (hk : IDKey.ReturnsBytes) (hp : p.WellTyped) (hlen : p.Length = p.Salt.length)
    (ht1 : 1 ≤ p.Time) (hth1 : 1 ≤ p.Threads) (hl1 : 1 ≤ p.Length) :
    ∃ out, GenerateFromPassword IDKey password p = .ret (out, none) ∧
      CompareHashAndPassword IDKey out password = .ret none := by
  obtain ⟨out, hgen, hcmp⟩ :=
    CompareHashAndPassword_generated IDKey hk password password p hp ht1 hth1 hl1
  refine ⟨out, hgen, ?_⟩
  rw [hcmp, ← hlen, Nat.mod_eq_of_lt hp.2.2.2.1,
    argon2_IDKey_ret IDKey password p.Salt p.Time p.Memory p.Threads p.Length ht1 hth1 hl1]
  simp only [if_true]

/-- C2 (witness): the reference vector, whose salt and length are both 4 bytes. -/
theorem C2_verify_generated_record_witness :
    KDF.ReturnsBytes vectorKDF ∧ vectorParameters.WellTyped ∧
      vectorParameters.Length = vectorParameters.Salt.length ∧
      1 ≤ vectorParameters.Time ∧ 1 ≤ vectorParameters.Threads ∧
      1 ≤ vectorParameters.Length ∧
      ∃ out, GenerateFromPassword vectorKDF (ascii "argon") vectorParameters = .ret (out, none) ∧
        CompareHashAndPassword vectorKDF out (ascii "argon") = .ret none :=
  ⟨vectorKDF_ReturnsBytes, by decide, by decide, by decide, by decide, by decide,
    C2_verify_generated_record vectorKDF (ascii "argon") vectorParameters
      vectorKDF_ReturnsBytes (by decide) (by decide) (by decide) (by decide) (by decide)⟩

/-- C3 (counterexample): with time 0, and with the length 0 and the empty
salt that `NewParameters(1, 65536, 1, 0)` builds, the encoder panics in
`argon2.IDKey` whatever key the primitive computes: there is no record to
decode. -/
theorem C3_counterexample_encoder_panics :
    Parameters.WellTyped
        { Time := 0, Memory := 65536, Threads := 1, Length := 4, Salt := ascii "SALT" } ∧
      (∀ (IDKey : KDF) (password : Bytes),
        GenerateFromPassword IDKey password
            { Time := 0, Memory := 65536, Threads := 1, Length := 4, Salt := ascii "SALT" } =
          .panicIDKey) ∧
      NewParameters (fun n => (List.replicate n 0, none)) 1 65536 1 0 =
        ({ Time := 1, Memory := 65536, Threads := 1, Length := 0, Salt := [] }, none) ∧
      ∀ (IDKey : KDF) (password : Bytes),
        GenerateFromPassword IDKey password
            { Time := 1, Memory := 65536, Threads := 1, Length := 0, Salt := [] } =
          .panicIDKey :=
  ⟨by decide,
    fun IDKey password => GenerateFromPassword_panic IDKey password _ (Or.inl rfl),
    by decide,
    fun IDKey password => GenerateFromPassword_panic IDKey password _ (Or.inr (Or.inr rfl))⟩

/-- C3 (amended): for every password and all parameters with time, threads
and length at least 1, the encoder returns a record, and decoding that
record succeeds and returns the salt byte for byte and the same time,
memory and threads. -/
theorem C3_decode_generated_record (IDKey : KDF) (password : Bytes) (p : Parameters)
    (hp : p.WellTyped) (ht1 : 1 ≤ p.Time) (hth1 : 1 ≤ p.Threads) (hl1 : 1 ≤ p.Length) :
    ∃ (out : Bytes) (q : Parameters),
      GenerateFromPassword IDKey password p = .ret (out, none) ∧
        GetParametersFromHash out = .ret (q, none) ∧
        q.Salt = p.Salt ∧ q.Time = p.Time ∧ q.Memory = p.Memory ∧ q.Threads = p.Threads := by
  obtain ⟨out, hgen, hdec⟩ := GetParametersFromHash_generated IDKey password p hp ht1 hth1 hl1
  exact ⟨out, _, hgen, hdec, rfl, rfl, rfl, rfl⟩

/-- C3 (witness): the reference vector. -/
theorem C3_decode_generated_record_witness :
    vectorParameters.WellTyped ∧ 1 ≤ vectorParameters.Time ∧ 1 ≤ vectorParameters.Threads ∧
      1 ≤ vectorParameters.Length ∧
      ∃ (out : Bytes) (q : Parameters),
        GenerateFromPassword vectorKDF (ascii "argon") vectorParameters = .ret (out, none) ∧
        GetParametersFromHash out = .ret (q, none) ∧
        q.Salt = vectorParameters.Salt ∧ q.Time = vectorParameters.Time ∧
          q.Memory = vectorParameters.Memory ∧ q.Threads = vectorParameters.Threads :=
  ⟨by decide, by decide, by decide, by decide,
    C3_decode_generated_record vectorKDF (ascii "argon") vectorParameters (by decide)
      (by decide) (by decide) (by decide)⟩

/-- C4 (code defect): on every input whose parameter block starts with `m=`,
as in the documented format and in the record of the tests, the decoder
returns the scan error "expected integer" and the zero parameters. -/
theorem C4_GetParametersFromHash_rejects_documented_format (hash rest : Bytes)
    (h : (Split dollar hash).get? 3 = some (ascii "m=" ++ rest)) :
    GetParametersFromHash hash = .ret ({}, some (.scanError .expectedInteger)) := by
  unfold GetParametersFromHash
  simp only [h, Sscanf_m_equals]

/-- C4 (witness): the record of the tests. -/
theorem C4_GetParametersFromHash_rejects_documented_format_witness :
    (Split dollar vectorRecord).get? 3 = some (ascii "m=" ++ ascii "65536,t=1,p=1") ∧
      GetParametersFromHash vectorRecord = .ret ({}, some (.scanError .expectedInteger)) :=
  ⟨by decide,
    C4_GetParametersFromHash_rejects_documented_format vectorRecord (ascii "65536,t=1,p=1")
      (by decide)⟩

/-- C5 (code defect): for the record of the tests the verifier returns the
scan error "expected integer" for every password, for "argon" as for
"Argon": it reports neither a match nor a mismatch. -/
theorem C5_CompareHashAndPassword_rejects_documented_format (IDKey : KDF) (password : Bytes) :
    CompareHashAndPassword IDKey vectorRecord password =
      .ret (some (.scanError .expectedInteger)) := by
  have hs : Split dollar vectorRecord =
      [[], ascii "argon2id", ascii "v=19", ascii "m=65536,t=1,p=1", ascii "U0FMVA",
       ascii "kRmKhQ"] := by decide
  have hd : DecodeString (ascii "kRmKhQ") = .ok [0x91, 0x19, 0x8a, 0x85] := by rfl
  have hg : GetParametersFromHash vectorRecord =
      .ret ({}, some (.scanError .expectedInteger)) := by decide
  unfold CompareHashAndPassword
  simp only [hs, hd, hg, List.length_cons, List.length_nil, List.get?_cons_succ,
    List.get?_cons_zero, ne_eq, not_true_eq_false, if_false, Nat.reduceAdd]

/-- C6: when the hash does not split on `$` into exactly six segments, that
is, when it does not hold exactly five `$`, the verifier returns
`ErrorInvalidHash` for every password. -/
theorem C6_wrong_segment_count (IDKey : KDF) (hash password : Bytes)
    (h : (Split dollar hash).length ≠ 6 ∨ hash.count dollar ≠ 5) :
    CompareHashAndPassword IDKey hash password = .ret (some .ErrorInvalidHash) := by
  have h6 : (Split dollar hash).length ≠ 6 := by
    rcases h with h | h
    · exact h
    · rw [Split_length]; omega
  unfold CompareHashAndPassword
  simp only [ne_eq, h6, not_false_eq_true, if_true]

/-- C6 (witness): the hash "somefakehash" with the empty password. -/
theorem C6_wrong_segment_count_witness :
    ((Split dollar (ascii "somefakehash")).length ≠ 6 ∨
        (ascii "somefakehash").count dollar ≠ 5) ∧
      CompareHashAndPassword vectorKDF (ascii "somefakehash") (ascii "") =
        .ret (some .ErrorInvalidHash) :=
  ⟨by decide, C6_wrong_segment_count vectorKDF (ascii "somefakehash") (ascii "") (by decide)⟩

/-- C7: when the hash splits into exactly six segments and the second one
is not `argon2id`, the verifier returns `ErrorInvalidVersion` for every
password, whatever the other segments hold. -/
theorem C7_wrong_algorithm_tag (IDKey : KDF) (hash password : Bytes)
    (h6 : (Split dollar hash).length = 6)
    (htag : (Split dollar hash).get? 1 ≠ some (ascii "argon2id")) :
    CompareHashAndPassword IDKey hash password = .ret (some .ErrorInvalidVersion) := by
  unfold CompareHashAndPassword
  simp only [ne_eq, h6, not_true_eq_false, if_false]
  cases hs : (Split dollar hash).get? 1 with
  | none =>
    have := List.get?_eq_none.mp hs
    omega
  | some section1 =>
    have hne : section1 ≠ ascii "argon2id" := by
      intro e; rw [hs, e] at htag; exact htag rfl
    simp only [ne_eq, hne, not_false_eq_true, if_true]

/-- C7 (witness): the record of the tests with the tag `argon2i`. -/
theorem C7_wrong_algorithm_tag_witness :
    (Split dollar (ascii "$argon2i$v=19$m=65536,t=1,p=1$U0FMVA$kRmKhQ")).length = 6 ∧
      (Split dollar (ascii "$argon2i$v=19$m=65536,t=1,p=1$U0FMVA$kRmKhQ")).get? 1 ≠
        some (ascii "argon2id") ∧
      CompareHashAndPassword vectorKDF (ascii "$argon2i$v=19$m=65536,t=1,p=1$U0FMVA$kRmKhQ")
          (ascii "") =
        .ret (some .ErrorInvalidVersion) :=
  ⟨by decide, by decide,
    C7_wrong_algorithm_tag vectorKDF (ascii "$argon2i$v=19$m=65536,t=1,p=1$U0FMVA$kRmKhQ")
      (ascii "") (by decide) (by decide)⟩

/-- C8 (counterexample): with a 4-byte length and the empty salt the
encoder returns a record for "a", and verifying it against "b" panics in
`argon2.IDKey` (the verifier asks for a key of 0 bytes), whatever key the
primitive computes. And whatever key it computes, two of the two-byte
passwords `[0, 0]`, ..., `[1, 0]` have the same one-byte key, so that the
record of one verifies against the other with the result nil. -/
theorem C8_counterexample_equal_digests :
    ascii "a" ≠ ascii "b" ∧
      Parameters.WellTyped
        { Time := 1, Memory := 65536, Threads := 1, Length := 4, Salt := [] } ∧
      (∀ IDKey : KDF, IDKey.ReturnsBytes →
        ∃ out,
          GenerateFromPassword IDKey (ascii "a")
              { Time := 1, Memory := 65536, Threads := 1, Length := 4, Salt := [] } =
            .ret (out, none) ∧
          CompareHashAndPassword IDKey out (ascii "b") = .panicIDKey) ∧
      ¬ ∃ IDKey : KDF, IDKey.ReturnsBytes ∧ IDKey.ExactLength ∧
          ∀ (p : Parameters) (P P' out : Bytes), p.WellTyped → 1 ≤ p.Time → 1 ≤ p.Threads →
            p.Length = p.Salt.length → 1 ≤ p.Length → IsBytes P → IsBytes P' → P ≠ P' →
            GenerateFromPassword IDKey P p = .ret (out, none) →
            CompareHashAndPassword IDKey out P' = .ret (some .ErrorPasswordMismatch) := by
  refine ⟨by decide, by decide, ?_, ?_⟩
  · intro IDKey hk
    obtain ⟨out, hgen, hcmp⟩ := CompareHashAndPassword_generated IDKey hk (ascii "a") (ascii "b")
      { Time := 1, Memory := 65536, Threads := 1, Length := 4, Salt := [] } (by decide)
      (by decide) (by decide) (by decide)
    refine ⟨out, hgen, ?_⟩
    rw [hcmp]
    exact congrArg (fun r : Exec Bytes =>
        (match r with
          | .panicIDKey => .panicIDKey
          | .panicIndexOutOfRange i n => .panicIndexOutOfRange i n
          | .ret cHash =>
            if IDKey (ascii "a") [] 1 65536 1 4 = cHash then .ret none
            else .ret (some .ErrorPasswordMismatch) : Exec (Option GoError)))
      (argon2_IDKey_panic IDKey (ascii "b") [] 1 65536 1 0 (Or.inr (Or.inr rfl)))
  · rintro ⟨IDKey, hk, hx, hall⟩
    obtain ⟨P, P', hP, hP', hne, out, hgen, hc⟩ := exists_colliding_passwords IDKey hk hx
    have h := hall { Time := 1, Memory := 65536, Threads := 1, Length := 1, Salt := [0] } P P'
      out (by decide) (by decide) (by decide) (by decide) (by decide) hP hP' hne hgen
    rw [hc] at h
    cases h

/-- C8 (amended): for all parameters with time, threads and length at
least 1 and a salt of at least 1 and fewer than 2^32 bytes, and all
passwords `P` and `P'` such that the key derived for `P'` (with the salt,
time, memory and threads of the parameters and output length the byte
length of the salt) differs from the digest stored for `P`, the encoder
returns a record for `P` and verifying it against `P'` returns
`ErrorPasswordMismatch`. -/
theorem C8_mismatch_when_digests_differ (IDKey : KDF) (password candidate : Bytes)
    (p : Parameters) (hk : IDKey.ReturnsBytes) (hp : p.WellTyped)
    (ht1 : 1 ≤ p.Time) (hth1 : 1 ≤ p.Threads) (hl1 : 1 ≤ p.Length)
    (hs1 : 1 ≤ p.Salt.length) (hs2 : p.Salt.length < 2 ^ 32)
    (hne : IDKey password p.Salt p.Time p.Memory p.Threads p.Length ≠
      IDKey candidate p.Salt p.Time p.Memory p.Threads p.Salt.length) :
    ∃ out, GenerateFromPassword IDKey password p = .ret (out, none) ∧
      CompareHashAndPassword IDKey out candidate = .ret (some .ErrorPasswordMismatch) := by
  obtain ⟨out, hgen, hcmp⟩ :=
    CompareHashAndPassword_generated IDKey hk password candidate p hp ht1 hth1 hl1
  refine ⟨out, hgen, ?_⟩
  rw [hcmp, Nat.mod_eq_of_lt hs2,
    argon2_IDKey_ret IDKey candidate p.Salt p.Time p.Memory p.Threads p.Salt.length ht1 hth1 hs1]
  simp only [hne, if_false]

/-- C8 (witness): the reference vector verified against "Argon". -/
theorem C8_mismatch_when_digests_differ_witness :
    KDF.ReturnsBytes vectorKDF ∧ vectorParameters.WellTyped ∧
      vectorKDF (ascii "argon") vectorParameters.Salt vectorParameters.Time
          vectorParameters.Memory vectorParameters.Threads vectorParameters.Length ≠
        vectorKDF (ascii "Argon") vectorParameters.Salt vectorParameters.Time
          vectorParameters.Memory vectorParameters.Threads vectorParameters.Salt.length ∧
      ∃ out, GenerateFromPassword vectorKDF (ascii "argon") vectorParameters = .ret (out, none) ∧
        CompareHashAndPassword vectorKDF out (ascii "Argon") =
          .ret (some .ErrorPasswordMismatch) :=
  ⟨vectorKDF_ReturnsBytes, by decide, by decide,
    C8_mismatch_when_digests_differ vectorKDF (ascii "argon") (ascii "Argon") vectorParameters
      vectorKDF_ReturnsBytes (by decide) (by decide) (by decide) (by decide) (by decide)
      (by decide) (by decide)⟩

/-- C9 (counterexample): a record of six segments whose parameter block is
`x=1`: the decoder fails with the scan error "input does not match format",
which is not `ErrorInvalidHash`. -/
theorem C9_counterexample_scan_error :
    5 ≤ (Split dollar (ascii "$argon2id$v=19$x=1$U0FMVA$kRmKhQ")).length ∧
      (Sscanf (ascii "x=1") {}).2 ≠ none ∧
      GetParametersFromHash (ascii "$argon2id$v=19$x=1$U0FMVA$kRmKhQ") =
        .ret ({}, some (.scanError .inputDoesNotMatchFormat)) ∧
      GoError.scanError .inputDoesNotMatchFormat ≠ GoError.ErrorInvalidHash := by
  decide

/-- C9 (amended): for every hash with at least five segments whose fourth
segment `fmt.Sscanf` rejects with an error `e`, the decoder fails and
returns `e` unchanged, together with the parameters scanned so far; that
error is never `ErrorInvalidHash`. -/
theorem C9_scan_error_returned_unchanged (hash section3 : Bytes) (q : Parameters)
    (e : ScanError) (_h5 : 5 ≤ (Split dollar hash).length)
    (h3 : (Split dollar hash).get? 3 = some section3)
    (hscan : Sscanf section3 {} = (q, some e)) :
    GetParametersFromHash hash = .ret (q, some (.scanError e)) ∧
      GoError.scanError e ≠ GoError.ErrorInvalidHash := by
  constructor
  · unfold GetParametersFromHash
    simp only [h3, hscan]
  · intro h; cases h

/-- C9 (witness): the record of the tests, whose block starts with `m=`. -/
theorem C9_scan_error_returned_unchanged_witness :
    5 ≤ (Split dollar vectorRecord).length ∧
      (Split dollar vectorRecord).get? 3 = some (ascii "m=65536,t=1,p=1") ∧
      Sscanf (ascii "m=65536,t=1,p=1") {} = ({}, some .expectedInteger) ∧
      GetParametersFromHash vectorRecord = .ret ({}, some (.scanError .expectedInteger)) ∧
      GoError.scanError .expectedInteger ≠ GoError.ErrorInvalidHash :=
  ⟨by decide, by decide, by decide,
    C9_scan_error_returned_unchanged vectorRecord (ascii "m=65536,t=1,p=1") {} .expectedInteger
      (by decide) (by decide) (by decide)⟩

/-- C10 (code defect): on "somefakehash" and on the empty input the split
has one segment and the decoder panics at `sections[3]`; on an input of four
segments with a well-formed block it panics at `sections[4]`. -/
theorem C10_GetParametersFromHash_index_out_of_range :
    GetParametersFromHash (ascii "somefakehash") = .panicIndexOutOfRange 3 1 ∧
      GetParametersFromHash [] = .panicIndexOutOfRange 3 1 ∧
      GetParametersFromHash (ascii "$argon2id$v=19$m65536,t=1,p=1") =
        .panicIndexOutOfRange 4 4 := by
  decide

/-- C11: when the random source reports no error, `NewParameters` returns
without error the parameters whose time, memory, threads and length are the
four arguments and whose salt is the `length` bytes of the random source. -/
theorem C11_NewParameters_stores_arguments (Read : RandomSource)
    (time memory threads length : Nat) (hok : (Read length).2 = none)
    (hlen : Read.KeepsLength) :
    NewParameters Read time memory threads length =
        ({ Time := time, Memory := memory, Threads := threads, Length := length,
           Salt := (Read length).1 }, none) ∧
      (NewParameters Read time memory threads length).1.Salt.length = length := by
  have h : NewParameters Read time memory threads length =
      ({ Time := time, Memory := memory, Threads := threads, Length := length,
         Salt := (Read length).1 }, none) := by
    simp only [NewParameters, hok]
  exact ⟨h, by rw [h]; exact hlen length⟩

/-- C11 (witness): the call `NewParameters(1, 65536, 1, 4)` of the tests. -/
theorem C11_NewParameters_stores_arguments_witness :
    (vectorRead 4).2 = none ∧ RandomSource.KeepsLength vectorRead ∧
      NewParameters vectorRead 1 65536 1 4 =
        ({ Time := 1, Memory := 65536, Threads := 1, Length := 4,
           Salt := [0x5a, 0x5a, 0x5a, 0x5a] }, none) ∧
      (NewParameters vectorRead 1 65536 1 4).1.Salt.length = 4 :=
  ⟨by decide, vectorRead_KeepsLength,
    (C11_NewParameters_stores_arguments vectorRead 1 65536 1 4 (by decide)
      vectorRead_KeepsLength).1,
    (C11_NewParameters_stores_arguments vectorRead 1 65536 1 4 (by decide)
      vectorRead_KeepsLength).2⟩

/-- C12 (counterexample): with time 0, and with the length 0 and the
empty salt that `NewParameters(1, 65536, 1, 0)` builds, the encoder panics
in `argon2.IDKey` whatever key the primitive computes: it has no output
that could split into six segments. -/
theorem C12_counterexample_no_output :
    Parameters.WellTyped
        { Time := 0, Memory := 65536, Threads := 1, Length := 4, Salt := ascii "SALT" } ∧
      (∀ (IDKey : KDF) (password out : Bytes) (e : Option GoError),
        GenerateFromPassword IDKey password
            { Time := 0, Memory := 65536, Threads := 1, Length := 4, Salt := ascii "SALT" } ≠
          .ret (out, e)) ∧
      ∀ (IDKey : KDF) (password out : Bytes) (e : Option GoError),
        GenerateFromPassword IDKey password
            { Time := 1, Memory := 65536, Threads := 1, Length := 0, Salt := [] } ≠
          .ret (out, e) := by
  refine ⟨by decide, ?_, ?_⟩
  · intro IDKey password out e h
    rw [GenerateFromPassword_panic IDKey password _ (Or.inl rfl)] at h
    cases h
  · intro IDKey password out e h
    rw [GenerateFromPassword_panic IDKey password _ (Or.inr (Or.inr rfl))] at h
    cases h

/-- C12 (amended): for every password and all parameters with time, threads
and length at least 1 the encoder returns a record that splits on `$` into
exactly six segments, the first empty and the second `argon2id`; the
decimal numbers and the base64 of salt and digest hold no `$`. -/
theorem C12_generated_record_has_six_segments (IDKey : KDF) (password : Bytes)
    (p : Parameters) (ht1 : 1 ≤ p.Time) (hth1 : 1 ≤ p.Threads) (hl1 : 1 ≤ p.Length) :
    ∃ out, GenerateFromPassword IDKey password p = .ret (out, none) ∧
      (Split dollar out).length = 6 ∧
      (Split dollar out).get? 0 = some [] ∧
      (Split dollar out).get? 1 = some (ascii "argon2id") ∧
      dollar ∉ fmtInteger Version ∧ dollar ∉ fmtInteger p.Memory ∧
      dollar ∉ fmtInteger p.Time ∧ dollar ∉ fmtInteger p.Threads ∧
      dollar ∉ EncodeToString p.Salt ∧
      dollar ∉ EncodeToString (IDKey password p.Salt p.Time p.Memory p.Threads p.Length) := by
  refine ⟨_, GenerateFromPassword_ret IDKey password p ht1 hth1 hl1, ?_⟩
  rw [Split_Sprintf _ _ _ _ _ _ (dollar_not_mem_EncodeToString _)
    (dollar_not_mem_EncodeToString _)]
  exact ⟨rfl, rfl, rfl, dollar_not_mem_fmtInteger _, dollar_not_mem_fmtInteger _,
    dollar_not_mem_fmtInteger _, dollar_not_mem_fmtInteger _,
    dollar_not_mem_EncodeToString _, dollar_not_mem_EncodeToString _⟩

/-- C12 (witness): the reference vector. -/
theorem C12_generated_record_has_six_segments_witness :
    1 ≤ vectorParameters.Time ∧ 1 ≤ vectorParameters.Threads ∧ 1 ≤ vectorParameters.Length ∧
      GenerateFromPassword vectorKDF (ascii "argon") vectorParameters =
        .ret (generatedRecord, none) ∧
      (Split dollar generatedRecord).length = 6 ∧
      ∃ out, GenerateFromPassword vectorKDF (ascii "argon") vectorParameters = .ret (out, none) ∧
        (Split dollar out).length = 6 ∧
        (Split dollar out).get? 0 = some [] ∧
        (Split dollar out).get? 1 = some (ascii "argon2id") ∧
        dollar ∉ fmtInteger Version ∧ dollar ∉ fmtInteger vectorParameters.Memory ∧
        dollar ∉ fmtInteger vectorParameters.Time ∧
        dollar ∉ fmtInteger vectorParameters.Threads ∧
        dollar ∉ EncodeToString vectorParameters.Salt ∧
        dollar ∉ EncodeToString
          (vectorKDF (ascii "argon") vectorParameters.Salt vectorParameters.Time
            vectorParameters.Memory vectorParameters.Threads vectorParameters.Length) :=
  ⟨by decide, by decide, by decide, by decide, by decide,
    C12_generated_record_has_six_segments vectorKDF (ascii "argon") vectorParameters
      (by decide) (by decide) (by decide)⟩

/-- C14 (counterexample): the hash `$argon2id$v=19$m65536,t=0,p=1$U0FMVA$kRmKhQ`
has six segments and the tag `argon2id`, its digest decodes and the decoder
succeeds on it with time 0; for every password the verifier then panics in
`argon2.IDKey`, whatever key the primitive computes: the result is neither
nil nor `ErrorPasswordMismatch`. -/
theorem C14_counterexample_time_zero :
    (Split dollar (ascii "$argon2id$v=19$m65536,t=0,p=1$U0FMVA$kRmKhQ")).length = 6 ∧
      (Split dollar (ascii "$argon2id$v=19$m65536,t=0,p=1$U0FMVA$kRmKhQ")).get? 1 =
        some (ascii "argon2id") ∧
      (Split dollar (ascii "$argon2id$v=19$m65536,t=0,p=1$U0FMVA$kRmKhQ")).get? 5 =
        some (ascii "kRmKhQ") ∧
      DecodeString (ascii "kRmKhQ") = .ok [0x91, 0x19, 0x8a, 0x85] ∧
      GetParametersFromHash (ascii "$argon2id$v=19$m65536,t=0,p=1$U0FMVA$kRmKhQ") =
        .ret ({ Time := 0, Memory := 65536, Threads := 1, Length := 4, Salt := ascii "SALT" },
          none) ∧
      ∀ (IDKey : KDF) (password : Bytes),
        CompareHashAndPassword IDKey (ascii "$argon2id$v=19$m65536,t=0,p=1$U0FMVA$kRmKhQ")
          password = .panicIDKey := by
  refine ⟨by decide, by decide, by decide, rfl, by decide, ?_⟩
  intro IDKey password
  rw [CompareHashAndPassword_decoded IDKey _ password (ascii "kRmKhQ") [0x91, 0x19, 0x8a, 0x85]
    { Time := 0, Memory := 65536, Threads := 1, Length := 4, Salt := ascii "SALT" }
    (by decide) (by decide) (by decide) rfl (by decide)]
  exact congrArg (fun r : Exec Bytes =>
      (match r with
        | .panicIDKey => .panicIDKey
        | .panicIndexOutOfRange i n => .panicIndexOutOfRange i n
        | .ret cHash =>
          if [0x91, 0x19, 0x8a, 0x85] = cHash then .ret none
          else .ret (some .ErrorPasswordMismatch) : Exec (Option GoError)))
    (argon2_IDKey_panic IDKey password (ascii "SALT") 0 65536 1 4 (Or.inl rfl))

/-- C14 (amended): on a hash of six segments with the tag `argon2id` whose
digest segment decodes to `D` and on which the decoder succeeds with
parameters `p` whose time, threads and length are at least 1, the verifier
returns nil when `D` equals the key derived for the password with `p`, and
`ErrorPasswordMismatch` otherwise. -/
theorem C14_nil_or_mismatch (IDKey : KDF) (hash password section5 D : Bytes) (p : Parameters)
    (h6 : (Split dollar hash).length = 6)
    (htag : (Split dollar hash).get? 1 = some (ascii "argon2id"))
    (h5 : (Split dollar hash).get? 5 = some section5)
    (hD : DecodeString section5 = .ok D)
    (hp : GetParametersFromHash hash = .ret (p, none))
    (ht1 : 1 ≤ p.Time) (hth1 : 1 ≤ p.Threads) (hl1 : 1 ≤ p.Length) :
    CompareHashAndPassword IDKey hash password =
      if D = IDKey password p.Salt p.Time p.Memory p.Threads p.Length then .ret none
      else .ret (some .ErrorPasswordMismatch) := by
  rw [CompareHashAndPassword_decoded IDKey hash password section5 D p h6 htag h5 hD hp,
    argon2_IDKey_ret IDKey password p.Salt p.Time p.Memory p.Threads p.Length ht1 hth1 hl1]

/-- C14 (witness): the record the encoder writes for the reference vector,
verified against "argon" (nil) and against "Argon" (mismatch). -/
theorem C14_nil_or_mismatch_witness :
    (Split dollar generatedRecord).length = 6 ∧
      (Split dollar generatedRecord).get? 1 = some (ascii "argon2id") ∧
      (Split dollar generatedRecord).get? 5 = some (ascii "kRmKhQ") ∧
      DecodeString (ascii "kRmKhQ") = .ok [0x91, 0x19, 0x8a, 0x85] ∧
      GetParametersFromHash generatedRecord = .ret (vectorParameters, none) ∧
      1 ≤ vectorParameters.Time ∧ 1 ≤ vectorParameters.Threads ∧
      1 ≤ vectorParameters.Length ∧
      CompareHashAndPassword vectorKDF generatedRecord (ascii "argon") = .ret none ∧
      CompareHashAndPassword vectorKDF generatedRecord (ascii "Argon") =
        .ret (some .ErrorPasswordMismatch) :=
  ⟨by decide, by decide, by decide, rfl, by decide, by decide, by decide, by decide,
    (C14_nil_or_mismatch vectorKDF generatedRecord (ascii "argon") (ascii "kRmKhQ")
      [0x91, 0x19, 0x8a, 0x85] vectorParameters (by decide) (by decide) (by decide) rfl
      (by decide) (by decide) (by decide) (by decide)).trans (by decide),
    (C14_nil_or_mismatch vectorKDF generatedRecord (ascii "Argon") (ascii "kRmKhQ")
      [0x91, 0x19, 0x8a, 0x85] vectorParameters (by decide) (by decide) (by decide) rfl
      (by decide) (by decide) (by decide) (by decide)).trans (by decide)⟩

/-- C15: on a hash of six segments with the tag `argon2id`, a base64 error
of the digest segment is returned unchanged, whatever the parameter block
and the salt segment hold; and when the digest segment decodes, an error
`e` of the decoder is returned unchanged. Neither result is nil or
`ErrorPasswordMismatch`. -/
theorem C15_errors_returned_unchanged (IDKey : KDF) (hash password section5 : Bytes)
    (h6 : (Split dollar hash).length = 6)
    (htag : (Split dollar hash).get? 1 = some (ascii "argon2id"))
    (h5 : (Split dollar hash).get? 5 = some section5) :
    (∀ err, DecodeString section5 = .error err →
        CompareHashAndPassword IDKey hash password = .ret (some err) ∧
          err ≠ .ErrorPasswordMismatch) ∧
      ∀ D q e, DecodeString section5 = .ok D →
        GetParametersFromHash hash = .ret (q, some e) →
          CompareHashAndPassword IDKey hash password = .ret (some e) ∧
            e ≠ .ErrorPasswordMismatch := by
  constructor
  · intro err herr
    constructor
    · unfold CompareHashAndPassword
      simp only [ne_eq, h6, not_true_eq_false, if_false, htag, h5, herr]
    · obtain ⟨offset, he⟩ := DecodeString_error _ _ herr
      rw [he]
      intro h; cases h
  · intro D q e hD hg
    constructor
    · unfold CompareHashAndPassword
      simp only [ne_eq, h6, not_true_eq_false, if_false, htag, h5, hD, hg]
    · rcases GetParametersFromHash_error hash q e hg with ⟨sc, he⟩ | ⟨offset, he⟩
      · rw [he]; intro h; cases h
      · rw [he]; intro h; cases h

/-- C15 (witness): a record whose digest, block and salt are all malformed
returns the base64 error of the digest; the record of the tests, whose
digest decodes, returns the scan error of the decoder. -/
theorem C15_errors_returned_unchanged_witness :
    ((Split dollar (ascii "$argon2id$v=19$x$!$*")).length = 6 ∧
        (Split dollar (ascii "$argon2id$v=19$x$!$*")).get? 1 = some (ascii "argon2id") ∧
        (Split dollar (ascii "$argon2id$v=19$x$!$*")).get? 5 = some (ascii "*") ∧
        DecodeString (ascii "*") = .error (.CorruptInputError 0) ∧
        CompareHashAndPassword vectorKDF (ascii "$argon2id$v=19$x$!$*") (ascii "argon") =
          .ret (some (.CorruptInputError 0))) ∧
      (Split dollar vectorRecord).length = 6 ∧
      (Split dollar vectorRecord).get? 1 = some (ascii "argon2id") ∧
      (Split dollar vectorRecord).get? 5 = some (ascii "kRmKhQ") ∧
      DecodeString (ascii "kRmKhQ") = .ok [0x91, 0x19, 0x8a, 0x85] ∧
      GetParametersFromHash vectorRecord = .ret ({}, some (.scanError .expectedInteger)) ∧
      CompareHashAndPassword vectorKDF vectorRecord (ascii "argon") =
        .ret (some (.scanError .expectedInteger)) :=
  ⟨⟨by decide, by decide, by decide, rfl,
      ((C15_errors_returned_unchanged vectorKDF (ascii "$argon2id$v=19$x$!$*") (ascii "argon")
        (ascii "*") (by decide) (by decide) (by decide)).1 _ rfl).1⟩,
    by decide, by decide, by decide, rfl, by decide,
    ((C15_errors_returned_unchanged vectorKDF vectorRecord (ascii "argon") (ascii "kRmKhQ")
      (by decide) (by decide) (by decide)).2 [0x91, 0x19, 0x8a, 0x85] {} _ rfl
      (by decide)).1⟩

/-- C16 (counterexample): the record generated for a salt of 2^32 zero
bytes decodes to parameters whose salt has 2^32 bytes and whose `Length`
is 0. -/
theorem C16_counterexample_salt_of_two_pow_32_bytes :
    ∃ (out : Bytes) (q : Parameters),
      GenerateFromPassword vectorKDF (ascii "argon")
          { Time := 1, Memory := 65536, Threads := 1, Length := 4,
            Salt := List.replicate (2 ^ 32) 0 } =
        .ret (out, none) ∧
      GetParametersFromHash out = .ret (q, none) ∧
      q.Salt.length = 2 ^ 32 ∧ q.Length = 0 ∧ q.Length ≠ q.Salt.length := by
  obtain ⟨out, q, hgen, hq, hlen, hL⟩ := GetParametersFromHash_zero_salt (2 ^ 32)
  refine ⟨out, q, hgen, hq, hlen, ?_, ?_⟩
  · rw [hL, Nat.mod_self]
  · rw [hL, hlen, Nat.mod_self]
    norm_num

/-- C16 (amended): for every hash on which the decoder succeeds, `Length`
is the byte length of the returned salt reduced modulo 2^32, so it is the
byte length of the salt when that is below 2^32; and the salt is the
base64 decoding of the fifth segment. -/
theorem C16_length_is_salt_length_mod_two_pow_32 (hash : Bytes) (p : Parameters)
    (h : GetParametersFromHash hash = .ret (p, none)) :
    p.Length = p.Salt.length % 2 ^ 32 ∧
      (p.Salt.length < 2 ^ 32 → p.Length = p.Salt.length) ∧
      ∃ section4, (Split dollar hash).get? 4 = some section4 ∧
        DecodeString section4 = .ok p.Salt := by
  obtain ⟨section3, section4, q, _, h4, _, hd, hp⟩ := GetParametersFromHash_ok hash p h
  have hlen : p.Length = p.Salt.length % 2 ^ 32 := by
    rw [hp]
  exact ⟨hlen, fun hlt => by rw [hlen, Nat.mod_eq_of_lt hlt], section4, h4, hd⟩

/-- C16 (witness): the record the encoder writes for the reference vector. -/
theorem C16_length_is_salt_length_mod_two_pow_32_witness :
    GetParametersFromHash generatedRecord = .ret (vectorParameters, none) ∧
      vectorParameters.Length = vectorParameters.Salt.length % 2 ^ 32 ∧
      (vectorParameters.Salt.length < 2 ^ 32 →
        vectorParameters.Length = vectorParameters.Salt.length) ∧
      ∃ section4, (Split dollar generatedRecord).get? 4 = some section4 ∧
        DecodeString section4 = .ok vectorParameters.Salt :=
  ⟨by decide,
    C16_length_is_salt_length_mod_two_pow_32 generatedRecord vectorParameters (by decide)⟩

/-- C17 (counterexample): with time 1, threads 1, length 4 and the empty
salt (`Length` differs from the byte length of the salt, both below 2^32)
the encoder returns a record and the verifier panics in `argon2.IDKey`,
asked for a key of 0 bytes, instead of returning `ErrorPasswordMismatch`;
and with `Length` equal to the byte length 0 of the empty salt the encoder
itself panics. Both hold whatever key the primitive computes. -/
theorem C17_counterexample_empty_salt :
    Parameters.WellTyped
        { Time := 1, Memory := 65536, Threads := 1, Length := 4, Salt := [] } ∧
      (∀ IDKey : KDF, IDKey.ReturnsBytes →
        ∃ out,
          GenerateFromPassword IDKey (ascii "argon")
              { Time := 1, Memory := 65536, Threads := 1, Length := 4, Salt := [] } =
            .ret (out, none) ∧
          CompareHashAndPassword IDKey out (ascii "argon") = .panicIDKey) ∧
      ∀ (IDKey : KDF) (password : Bytes),
        GenerateFromPassword IDKey password
            { Time := 1, Memory := 65536, Threads := 1, Length := 0, Salt := [] } =
          .panicIDKey := by
  refine ⟨by decide, ?_, ?_⟩
  · intro IDKey hk
    obtain ⟨out, hgen, hcmp⟩ := CompareHashAndPassword_generated IDKey hk (ascii "argon")
      (ascii "argon") { Time := 1, Memory := 65536, Threads := 1, Length := 4, Salt := [] }
      (by decide) (by decide) (by decide) (by decide)
    refine ⟨out, hgen, ?_⟩
    rw [hcmp]
    exact congrArg (fun r : Exec Bytes =>
        (match r with
          | .panicIDKey => .panicIDKey
          | .panicIndexOutOfRange i n => .panicIndexOutOfRange i n
          | .ret cHash =>
            if IDKey (ascii "argon") [] 1 65536 1 4 = cHash then .ret none
            else .ret (some .ErrorPasswordMismatch) : Exec (Option GoError)))
      (argon2_IDKey_panic IDKey (ascii "argon") [] 1 65536 1 0 (Or.inr (Or.inr rfl)))
  · intro IDKey password
    exact GenerateFromPassword_panic IDKey password _ (Or.inr (Or.inr rfl))

/-- C17 (amended): with a key-derivation function that returns exactly the
requested number of bytes, and for parameters with time, threads and length
at least 1: the record generated for a password verifies against that
password when `Length` is the byte length of the salt, and gives
`ErrorPasswordMismatch` when `Length` differs from the byte length of the
salt and the salt has at least 1 and fewer than 2^32 bytes. -/
theorem C17_length_and_salt_length (IDKey : KDF) (password : Bytes) (p : Parameters)
    (hx : IDKey.ExactLength) (hk : IDKey.ReturnsBytes) (hp : p.WellTyped)
    (ht1 : 1 ≤ p.Time) (hth1 : 1 ≤ p.Threads) (hl1 : 1 ≤ p.Length) :
    (p.Length = p.Salt.length →
        ∃ out, GenerateFromPassword IDKey password p = .ret (out, none) ∧
          CompareHashAndPassword IDKey out password = .ret none) ∧
      (p.Length ≠ p.Salt.length → 1 ≤ p.Salt.length → p.Salt.length < 2 ^ 32 →
        ∃ out, GenerateFromPassword IDKey password p = .ret (out, none) ∧
          CompareHashAndPassword IDKey out password = .ret (some .ErrorPasswordMismatch)) := by
  obtain ⟨out, hgen, hcmp⟩ :=
    CompareHashAndPassword_generated IDKey hk password password p hp ht1 hth1 hl1
  constructor
  · intro heq
    refine ⟨out, hgen, ?_⟩
    rw [hcmp, ← heq, Nat.mod_eq_of_lt hp.2.2.2.1,
      argon2_IDKey_ret IDKey password p.Salt p.Time p.Memory p.Threads p.Length ht1 hth1 hl1]
    simp only [if_true]
  · intro hne hs1 hlt
    refine ⟨out, hgen, ?_⟩
    rw [hcmp, Nat.mod_eq_of_lt hlt,
      argon2_IDKey_ret IDKey password p.Salt p.Time p.Memory p.Threads p.Salt.length ht1 hth1
        hs1]
    have hd : IDKey password p.Salt p.Time p.Memory p.Threads p.Length ≠
        IDKey password p.Salt p.Time p.Memory p.Threads p.Salt.length := by
      intro heq
      have h1 := hx password p.Salt p.Time p.Memory p.Threads p.Length
      have h2 := hx password p.Salt p.Time p.Memory p.Threads p.Salt.length
      rw [heq, h2] at h1
      exact hne h1.symm
    simp only [hd, if_false]

/-- C17 (witness): the reference vector with `Length` 4 (verifies) and with
`Length` 5 against the 4-byte salt (mismatch). -/
theorem C17_length_and_salt_length_witness :
    KDF.ExactLength vectorKDF ∧ KDF.ReturnsBytes vectorKDF ∧
      (∃ out, GenerateFromPassword vectorKDF (ascii "argon") vectorParameters =
          .ret (out, none) ∧
        CompareHashAndPassword vectorKDF out (ascii "argon") = .ret none) ∧
      ∃ out,
        GenerateFromPassword vectorKDF (ascii "argon")
            { Time := 1, Memory := 65536, Threads := 1, Length := 5, Salt := ascii "SALT" } =
          .ret (out, none) ∧
        CompareHashAndPassword vectorKDF out (ascii "argon") =
          .ret (some .ErrorPasswordMismatch) :=
  ⟨vectorKDF_ExactLength, vectorKDF_ReturnsBytes,
    (C17_length_and_salt_length vectorKDF (ascii "argon") vectorParameters
      vectorKDF_ExactLength vectorKDF_ReturnsBytes (by decide) (by decide) (by decide)
      (by decide)).1 (by decide),
    (C17_length_and_salt_length vectorKDF (ascii "argon")
      { Time := 1, Memory := 65536, Threads := 1, Length := 5, Salt := ascii "SALT" }
      vectorKDF_ExactLength vectorKDF_ReturnsBytes (by decide) (by decide) (by decide)
      (by decide)).2 (by decide) (by decide) (by decide)⟩

/-- C18: on every hash and every password no segment access of the verifier
is out of range, and on a hash of six segments the decoder it calls returns
as well. The verifier returns unless the call of `argon2.IDKey` it makes
with the decoded parameters panics: with a key-derivation primitive that
always returns, it is defined on every pair of byte sequences. -/
theorem C18_CompareHashAndPassword_returns (IDKey : KDF) (hash password : Bytes) :
    (∀ i n, CompareHashAndPassword IDKey hash password ≠ .panicIndexOutOfRange i n) ∧
      ((∃ r, CompareHashAndPassword IDKey hash password = .ret r) ∨
        (CompareHashAndPassword IDKey hash password = .panicIDKey ∧
          ∃ p, GetParametersFromHash hash = .ret (p, none) ∧
            argon2_IDKey IDKey password p.Salt p.Time p.Memory p.Threads p.Length =
              .panicIDKey)) ∧
      ((Split dollar hash).length = 6 → ∃ r, GetParametersFromHash hash = .ret r) := by
  have hdec : (Split dollar hash).length = 6 → ∃ r, GetParametersFromHash hash = .ret r := by
    intro h6
    obtain ⟨a, b, c, d, e, f, hs⟩ := length_eq_six _ h6
    rw [GetParametersFromHash_of_sections hash d e (by rw [hs]; rfl) (by rw [hs]; rfl)]
    cases hsc : Sscanf d {} with
    | mk p err =>
      cases err with
      | some err => exact ⟨_, rfl⟩
      | none =>
        cases he : DecodeString e with
        | error err => exact ⟨_, rfl⟩
        | ok salt => exact ⟨_, rfl⟩
  have hmain : (∃ r, CompareHashAndPassword IDKey hash password = .ret r) ∨
      (CompareHashAndPassword IDKey hash password = .panicIDKey ∧
        ∃ p, GetParametersFromHash hash = .ret (p, none) ∧
          argon2_IDKey IDKey password p.Salt p.Time p.Memory p.Threads p.Length =
            .panicIDKey) := by
    by_cases h6 : (Split dollar hash).length = 6
    · obtain ⟨a, b, c, d, e, f, hs⟩ := length_eq_six _ h6
      by_cases htag : b = ascii "argon2id"
      · cases hf : DecodeString f with
        | error err =>
          left
          refine ⟨some err, ?_⟩
          unfold CompareHashAndPassword
          simp only [hs, List.length_cons, List.length_nil, List.get?_cons_succ,
            List.get?_cons_zero, ne_eq, not_true_eq_false, if_false, Nat.reduceAdd, htag, hf]
        | ok dHash =>
          obtain ⟨r, hr⟩ := hdec h6
          obtain ⟨q, err⟩ := r
          cases err with
          | some err =>
            left
            refine ⟨some err, ?_⟩
            unfold CompareHashAndPassword
            simp only [hs, List.length_cons, List.length_nil, List.get?_cons_succ,
              List.get?_cons_zero, ne_eq, not_true_eq_false, if_false, Nat.reduceAdd, htag, hf]
            rw [hr]
          | none =>
            have hcmp := CompareHashAndPassword_decoded IDKey hash password f dHash q h6
              (by rw [hs, htag]; rfl) (by rw [hs]; rfl) hf hr
            cases hk : argon2_IDKey IDKey password q.Salt q.Time q.Memory q.Threads q.Length with
            | panicIDKey =>
              right
              rw [hk] at hcmp
              exact ⟨hcmp, q, hr, hk⟩
            | panicIndexOutOfRange i n =>
              exfalso
              unfold argon2_IDKey at hk
              split at hk
              · cases hk
              · split at hk
                · cases hk
                · split at hk
                  · cases hk
                  · cases hk
            | ret cHash =>
              left
              rw [hk] at hcmp
              by_cases hd : dHash = cHash
              · exact ⟨none, by rw [hcmp]; simp only [hd, if_true]⟩
              · exact ⟨some .ErrorPasswordMismatch, by rw [hcmp]; simp only [hd, if_false]⟩
      · left
        refine ⟨some .ErrorInvalidVersion, ?_⟩
        unfold CompareHashAndPassword
        simp only [hs, List.length_cons, List.length_nil, List.get?_cons_succ,
          List.get?_cons_zero, ne_eq, not_true_eq_false, if_false, Nat.reduceAdd, htag,
          not_false_eq_true, if_true]
    · left
      refine ⟨some .ErrorInvalidHash, ?_⟩
      unfold CompareHashAndPassword
      simp only [ne_eq, h6, not_false_eq_true, if_true]
  refine ⟨?_, hmain, hdec⟩
  intro i n h
  rcases hmain with ⟨r, hr⟩ | ⟨hp, _⟩
  · rw [hr] at h; cases h
  · rw [hp] at h; cases h

/-- C19: two hashes that both split into six segments and differ only in
the third one give the same result for every password. -/
theorem C19_version_segment_ignored (IDKey : KDF) (hash1 hash2 password : Bytes)
    (a b c1 c2 d e f : Bytes) (h1 : Split dollar hash1 = [a, b, c1, d, e, f])
    (h2 : Split dollar hash2 = [a, b, c2, d, e, f]) :
    CompareHashAndPassword IDKey hash1 password =
      CompareHashAndPassword IDKey hash2 password := by
  rw [CompareHashAndPassword_of_sections IDKey hash1 password a b c1 d e f h1,
    CompareHashAndPassword_of_sections IDKey hash2 password a b c2 d e f h2]

/-- C19 (witness): the generated record of the reference vector with the
version segment `v=19` and with `v=999`. -/
theorem C19_version_segment_ignored_witness :
    Split dollar generatedRecord =
        [[], ascii "argon2id", ascii "v=19", ascii "m65536,t=1,p=1", ascii "U0FMVA",
         ascii "kRmKhQ"] ∧
      Split dollar (ascii "$argon2id$v=999$m65536,t=1,p=1$U0FMVA$kRmKhQ") =
        [[], ascii "argon2id", ascii "v=999", ascii "m65536,t=1,p=1", ascii "U0FMVA",
         ascii "kRmKhQ"] ∧
      CompareHashAndPassword vectorKDF generatedRecord (ascii "argon") =
        CompareHashAndPassword vectorKDF (ascii "$argon2id$v=999$m65536,t=1,p=1$U0FMVA$kRmKhQ")
          (ascii "argon") :=
  ⟨by decide, by decide,
    C19_version_segment_ignored vectorKDF generatedRecord
      (ascii "$argon2id$v=999$m65536,t=1,p=1$U0FMVA$kRmKhQ") (ascii "argon")
      [] (ascii "argon2id") (ascii "v=19") (ascii "v=999") (ascii "m65536,t=1,p=1")
      (ascii "U0FMVA") (ascii "kRmKhQ") (by decide) (by decide)⟩

/-- C20: two inputs with at least five segments that agree on the fourth
and on the fifth segment give the same result of the decoder, whatever
their other segments and their number of segments. -/
theorem C20_decoder_reads_fourth_and_fifth (hash1 hash2 : Bytes)
    (hl1 : 5 ≤ (Split dollar hash1).length) (_hl2 : 5 ≤ (Split dollar hash2).length)
    (h3 : (Split dollar hash1).get? 3 = (Split dollar hash2).get? 3)
    (h4 : (Split dollar hash1).get? 4 = (Split dollar hash2).get? 4) :
    GetParametersFromHash hash1 = GetParametersFromHash hash2 := by
  have e3 : (Split dollar hash1).get? 3 = some ((Split dollar hash1).get ⟨3, by omega⟩) :=
    List.get?_eq_get (by omega)
  have e4 : (Split dollar hash1).get? 4 = some ((Split dollar hash1).get ⟨4, by omega⟩) :=
    List.get?_eq_get (by omega)
  rw [GetParametersFromHash_of_sections hash1 _ _ e3 e4,
    GetParametersFromHash_of_sections hash2 _ _ (h3 ▸ e3) (h4 ▸ e4)]

/-- C20 (witness): an input of five segments with the tag `argon2i` and an
empty version segment decodes like the generated record of the reference
vector: neither the tag nor the segment count is checked. -/
theorem C20_decoder_reads_fourth_and_fifth_witness :
    5 ≤ (Split dollar generatedRecord).length ∧
      (Split dollar (ascii "x$argon2i$$m65536,t=1,p=1$U0FMVA")).length = 5 ∧
      (Split dollar generatedRecord).get? 3 =
        (Split dollar (ascii "x$argon2i$$m65536,t=1,p=1$U0FMVA")).get? 3 ∧
      (Split dollar generatedRecord).get? 4 =
        (Split dollar (ascii "x$argon2i$$m65536,t=1,p=1$U0FMVA")).get? 4 ∧
      GetParametersFromHash (ascii "x$argon2i$$m65536,t=1,p=1$U0FMVA") =
        .ret (vectorParameters, none) ∧
      GetParametersFromHash generatedRecord =
        GetParametersFromHash (ascii "x$argon2i$$m65536,t=1,p=1$U0FMVA") :=
  ⟨by decide, by decide, by decide, by decide, by decide,
    C20_decoder_reads_fourth_and_fifth generatedRecord
      (ascii "x$argon2i$$m65536,t=1,p=1$U0FMVA") (by decide) (by decide) (by decide)
      (by decide)⟩

end Argon2id
